import Mathlib

/-!
Verification of the `ReactNativeSVGContext` rendering context and the
text-measurement module of the vexflow-react-native-svg repository.

The context (src/ReactNativeSVGContext.ts) builds a virtual SVG element
tree.  JavaScript objects holding attributes are modelled as ordered
association lists (`AttrMap`) with JS-object assignment semantics
(update-in-place for an existing key, append for a fresh key); the node
heap is modelled as a flat store keyed by the process-unique creation
key that the source assigns to every element (`nextElementKey`), so that
the reference-aliasing between `parent`, `groups` and the tree is
represented exactly.  Numeric values are modelled by `ℚ` (the `arc`
method, which needs real trigonometry, is modelled separately over `ℝ`
at the end of the file; it touches only the pending path string and the
pen, which is visible in the source).  The pending path string is
modelled as the list of path commands it concatenates; the JS rendering
of a command list to a string is injective, so string equality
coincides with list equality.
-/

namespace VexFlowRN

/-- A single SVG path command as appended to the pending-path string by
`moveTo` / `lineTo` / `bezierCurveTo` / `quadraticCurveTo` / `arc` /
`closePath`.  The `A` command in the source always writes
`A r r 0 large sweep x y` (both radii equal, x-axis-rotation 0), so it
is recorded as a radius, two Boolean flags and an endpoint. -/
inductive PathCmd (α : Type) where
  | M (x y : α)
  | L (x y : α)
  | C (x1 y1 x2 y2 x y : α)
  | Q (x1 y1 x y : α)
  | A (r : α) (large sweep : Bool) (x y : α)
  | Z
  deriving DecidableEq, Repr

/-- A JS attribute / prop value.  Strict equality `===` between values of
different runtime shapes is false, matching constructor disjointness.
`dash` models the string produced by `lineDash.join(",")`, `pathD` the
pending-path string, `vbox` the interpolated viewBox string and `tfm`
the rotation transform string; each of these string renderings is
injective, so equality of the models coincides with `===` on the
rendered strings. -/
inductive AttrVal where
  | str (s : String)
  | num (q : ℚ)
  | dash (l : List ℚ)
  | pathD (p : List (PathCmd ℚ))
  | vbox (x y w h : ℚ)
  | tfm (deg x y : ℚ)
  deriving DecidableEq, Repr

/-- A JS object holding attributes or props: an insertion-ordered list of
key/value bindings with unique keys maintained by `setA`. -/
abbrev AttrMap := List (String × AttrVal)

/-- First-match lookup (JS property read). -/
def lookupA : AttrMap → String → Option AttrVal
  | [], _ => none
  | kv :: rest, key => if kv.1 = key then some kv.2 else lookupA rest key

/-- JS property assignment: update an existing key in place, otherwise
append the new binding at the end. -/
def setA (m : AttrMap) (key : String) (v : AttrVal) : AttrMap :=
  if m.any (fun kv => kv.1 = key) then
    m.map (fun kv => if kv.1 = key then (kv.1, v) else kv)
  else m ++ [(key, v)]

/-- JS object spread `\x7b ...a, ...b \x7d`. -/
def mergeA (a b : AttrMap) : AttrMap :=
  b.foldl (fun acc kv => setA acc kv.1 kv.2) a

/-- `PROP_MAP`: translation of hyphenated SVG attribute names into
react-native-svg prop names; identity outside the table. -/
def propMap (k : String) : String :=
  if k = "font-family" then "fontFamily"
  else if k = "font-size" then "fontSize"
  else if k = "font-weight" then "fontWeight"
  else if k = "font-style" then "fontStyle"
  else if k = "stroke-width" then "strokeWidth"
  else if k = "stroke-dasharray" then "strokeDasharray"
  else if k = "stroke-linecap" then "strokeLinecap"
  else if k = "pointer-events" then "pointerEvents"
  else if k = "class" then "className"
  else k

/-- `ATTRIBUTES_TO_IGNORE`: per element type, attribute names that
`applyAttributes` skips. -/
def ignoredFor (typ k : String) : Bool :=
  if typ = "path" then
    k = "x" ∨ k = "y" ∨ k = "width" ∨ k = "height" ∨
    k = "font-family" ∨ k = "font-weight" ∨ k = "font-style" ∨ k = "font-size"
  else if typ = "rect" then
    k = "font-family" ∨ k = "font-weight" ∨ k = "font-style" ∨ k = "font-size"
  else if typ = "text" then
    k = "width" ∨ k = "height"
  else false

/-- A virtual SVG element node.  `children` holds the creation keys of
the child nodes (the store resolves them), mirroring the JS object
references. -/
structure Elem where
  typ : String
  props : AttrMap
  children : List ℕ
  textContent : Option String := none
  id : Option String := none
  className : Option String := none
  deriving DecidableEq, Repr

/-- The whole mutable state of a `ReactNativeSVGContext` instance.
`store` is the heap of allocated elements keyed by creation key;
`rootKey` is the root svg element; `parent` is the current insertion
point (`none` models the JS value `undefined` that arises from popping
the root frame); `pen = none` models the `NaN` initial pen. -/
structure Ctx where
  store : List (ℕ × Elem)
  rootKey : ℕ
  parent : Option ℕ
  groups : List ℕ
  groupAttributes : List AttrMap
  width : ℚ
  height : ℚ
  path : List (PathCmd ℚ)
  pen : Option (ℚ × ℚ)
  attributes : AttrMap
  state : AttrMap
  stateStack : List (AttrMap × AttrMap)
  places : ℕ
  backgroundFillStyle : String
  fontCSSString : String
  nextElementKey : ℕ
  elementRegistry : List (String × ℕ)
  classRegistry : List (String × List ℕ)
  deriving DecidableEq, Repr

/-- `Math.round(n * precision) / precision` with
`precision = 10 ^ RENDER_PRECISION_PLACES`; `Math.round` is
floor(x + 1/2). -/
def roundQ (places : ℕ) (q : ℚ) : ℚ :=
  ((⌊q * 10 ^ places + 1 / 2⌋ : ℤ) : ℚ) / 10 ^ places

def Ctx.round (ctx : Ctx) (q : ℚ) : ℚ := roundQ ctx.places q

/-- Heap read by creation key. -/
def getStored (ctx : Ctx) (k : ℕ) : Option Elem :=
  go ctx.store
where go : List (ℕ × Elem) → Option Elem
  | [] => none
  | kv :: rest => if kv.1 = k then some kv.2 else go rest

/-- Mutate the element stored under key `k`. -/
def updateElem (ctx : Ctx) (k : ℕ) (f : Elem → Elem) : Ctx :=
  { ctx with store := ctx.store.map (fun kv => if kv.1 = k then (kv.1, f kv.2) else kv) }

/-- `parentNode.children.push(child)`. -/
def pushChild (ctx : Ctx) (parentK childK : ℕ) : Ctx :=
  updateElem ctx parentK (fun e => { e with children := e.children ++ [childK] })

/-- `createElement(type)`: allocate a fresh node whose props carry the
process-unique creation key, and bump the key counter.  Returns the
new context together with the key of the new node. -/
def createElement (ctx : Ctx) (typ : String) : Ctx × ℕ :=
  ({ ctx with
      store := ctx.store ++
        [(ctx.nextElementKey,
          { typ := typ
            props := [("key", AttrVal.num (ctx.nextElementKey : ℚ))]
            children := [] })]
      nextElementKey := ctx.nextElementKey + 1 },
   ctx.nextElementKey)

/-- The enclosing group's effective attributes:
`this.groupAttributes[this.groupAttributes.length - 1]` (may be
`undefined` after an unbalanced `closeGroup`). -/
def effTop (ctx : Ctx) : Option AttrMap := ctx.groupAttributes.getLast?

/-- The body of `applyAttributes` as a pure function on the props of the
target element: iterate over the attribute object in insertion order,
skipping ignored names and any value strictly equal to the enclosing
group's effective value, and assign the rest under the translated prop
name.  (Bindings whose JS value is `undefined`/`null` are simply absent
from the modelled map.) -/
def applyAttrs (typ : String) (ga : Option AttrMap) (props attrs : AttrMap) : AttrMap :=
  attrs.foldl
    (fun ps kv =>
      if ignoredFor typ kv.1 then ps
      else if (ga.bind (fun m => lookupA m kv.1)) = some kv.2 then ps
      else setA ps (propMap kv.1) kv.2)
    props

/-- `this.applyAttributes(element, attributes)` on the element stored at
key `k`. -/
def Ctx.applyAttributes (ctx : Ctx) (k : ℕ) (attrs : AttrMap) : Ctx :=
  updateElem ctx k (fun e => { e with props := applyAttrs e.typ (effTop ctx) e.props attrs })

/-- `Map.set` semantics for the element registry. -/
def setReg (m : List (String × ℕ)) (key : String) (v : ℕ) : List (String × ℕ) :=
  if m.any (fun kv => kv.1 = key) then
    m.map (fun kv => if kv.1 = key then (kv.1, v) else kv)
  else m ++ [(key, v)]

/-- Registry lookup. -/
def getReg : List (String × List ℕ) → String → Option (List ℕ)
  | [], _ => none
  | kv :: rest, key => if kv.1 = key then some kv.2 else getReg rest key

/-- `classRegistry.set(c, (classRegistry.get(c) ?? []).push(k))`. -/
def pushReg (m : List (String × List ℕ)) (key : String) (v : ℕ) : List (String × List ℕ) :=
  if m.any (fun kv => kv.1 = key) then
    m.map (fun kv => if kv.1 = key then (kv.1, kv.2 ++ [v]) else kv)
  else m ++ [(key, v :: [])]

/-- Register the element stored at `k` in the id and class registries
(the shared tail of `addElement` and `openGroup`). -/
def registerElem (ctx : Ctx) (k : ℕ) : Ctx :=
  match getStored ctx k with
  | none => ctx
  | some e =>
    let ctx1 :=
      match e.id with
      | some i => { ctx with elementRegistry := setReg ctx.elementRegistry i k }
      | none => ctx
    match e.className with
    | some c => { ctx1 with classRegistry := pushReg ctx1.classRegistry c k }
    | none => ctx1

/-- `addElement`: push onto the current insertion point's child list and
register.  (With `parent = undefined` the source would crash on the
property access; that state is unreachable without a prior unbalanced
`closeGroup`, and the model leaves the tree unchanged there.) -/
def addElement (ctx : Ctx) (k : ℕ) : Ctx :=
  let ctx1 := match ctx.parent with
    | some p => pushChild ctx p k
    | none => ctx
  registerElem ctx1 k

/-- `vf-` prefixing of class and id names. -/
def vfName (name : String) : String := "vf-" ++ name

/-- The default font attributes of the constructor. -/
def defaultFontAttributes : AttrMap :=
  [("font-family", AttrVal.str "Bravura, Academico, serif"),
   ("font-size", AttrVal.str "10pt"),
   ("font-weight", AttrVal.str "normal"),
   ("font-style", AttrVal.str "normal")]

/-- The constructor's initial `this.attributes`. -/
def initAttributes : AttrMap :=
  [("stroke-width", AttrVal.num 1),
   ("stroke-dasharray", AttrVal.str "none"),
   ("fill", AttrVal.str "black"),
   ("stroke", AttrVal.str "black")] ++ defaultFontAttributes

/-- The constructor's initial `this.state`. -/
def initState : AttrMap :=
  [("scaleX", AttrVal.num 1), ("scaleY", AttrVal.num 1)] ++ defaultFontAttributes

/-- The root svg element as built by the constructor (creation key 1,
then `width`, `height` and `pointerEvents` props). -/
def initRootElem (w h : ℚ) : Elem :=
  { typ := "svg"
    props := [("key", AttrVal.num 1), ("width", AttrVal.num w),
              ("height", AttrVal.num h), ("pointerEvents", AttrVal.str "box-none")]
    children := [] }

/-- `new ReactNativeSVGContext(\x7bwidth, height\x7d)` with rendering
precision `10 ^ places`. -/
def initCtx (places : ℕ) (w h : ℚ) : Ctx :=
  { store := [(1, initRootElem w h)]
    rootKey := 1
    parent := some 1
    groups := [1]
    groupAttributes := [initAttributes]
    width := w
    height := h
    path := []
    pen := none
    attributes := initAttributes
    state := initState
    stateStack := []
    places := places
    backgroundFillStyle := "white"
    fontCSSString := ""
    nextElementKey := 2
    elementRegistry := []
    classRegistry := [] }

/-- `clear()`: empty the root's child list and both registries.  Nothing
else is touched in the source. -/
def clear (ctx : Ctx) : Ctx :=
  let ctx1 := updateElem ctx ctx.rootKey (fun e => { e with children := [] })
  { ctx1 with elementRegistry := [], classRegistry := [] }

def setFillStyle (ctx : Ctx) (style : String) : Ctx :=
  { ctx with attributes := setA ctx.attributes "fill" (AttrVal.str style) }

def setBackgroundFillStyle (ctx : Ctx) (style : String) : Ctx :=
  { ctx with backgroundFillStyle := style }

def setStrokeStyle (ctx : Ctx) (style : String) : Ctx :=
  { ctx with attributes := setA ctx.attributes "stroke" (AttrVal.str style) }

def setLineWidth (ctx : Ctx) (w : ℚ) : Ctx :=
  { ctx with attributes := setA ctx.attributes "stroke-width" (AttrVal.num w) }

def setLineCap (ctx : Ctx) (capType : String) : Ctx :=
  { ctx with attributes := setA ctx.attributes "stroke-linecap" (AttrVal.str capType) }

def setLineDash (ctx : Ctx) (lineDash : List ℚ) : Ctx :=
  { ctx with attributes := setA ctx.attributes "stroke-dasharray" (AttrVal.dash lineDash) }

/-- Numeric read of an attribute value (`this.state.scaleX as number`);
the non-numeric case never occurs in reachable states. -/
def numOr0 : Option AttrVal → ℚ
  | some (AttrVal.num q) => q
  | _ => 0

def setViewBox (ctx : Ctx) (x y w h : ℚ) : Ctx :=
  updateElem ctx ctx.rootKey
    (fun e => { e with props := setA e.props "viewBox" (AttrVal.vbox x y w h) })

def scale (ctx : Ctx) (x y : ℚ) : Ctx :=
  let sx := numOr0 (lookupA ctx.state "scaleX") * x
  let sy := numOr0 (lookupA ctx.state "scaleY") * y
  let ctx1 := { ctx with
    state := setA (setA ctx.state "scaleX" (AttrVal.num sx)) "scaleY" (AttrVal.num sy) }
  setViewBox ctx1 0 0 (ctx1.width / sx) (ctx1.height / sy)

def resize (ctx : Ctx) (w h : ℚ) : Ctx :=
  let ctx1 := { ctx with width := w, height := h }
  let ctx2 := updateElem ctx1 ctx1.rootKey
    (fun e => { e with props := setA (setA e.props "width" (AttrVal.num w)) "height" (AttrVal.num h) })
  scale ctx2 (numOr0 (lookupA ctx2.state "scaleX")) (numOr0 (lookupA ctx2.state "scaleY"))

/-- The `defaultAttrs` object of `rect` (a key bound to the JS value
`undefined` is modelled as absent). -/
def rectDefaultAttrs (ctx : Ctx) : AttrMap :=
  [("fill", AttrVal.str "none")] ++
  (match lookupA ctx.attributes "stroke-width" with
   | some v => [("stroke-width", v)]
   | none => []) ++
  [("stroke", AttrVal.str "black")]

/-- `rect(x, y, width, height, attributes?)`. -/
def rect (ctx : Ctx) (x y w h : ℚ) (attrs : Option AttrMap) : Ctx :=
  let y := if h < 0 then y + h else y
  let h := if h < 0 then -h else h
  let finalAttrs := mergeA (rectDefaultAttrs ctx) (attrs.getD [])
  let (ctx1, k) := createElement ctx "rect"
  let ctx2 := updateElem ctx1 k (fun e =>
    let p1 := setA e.props "x" (AttrVal.num (ctx.round x))
    let p2 := setA p1 "y" (AttrVal.num (ctx.round y))
    let p3 := setA p2 "width" (AttrVal.num (ctx.round w))
    let p4 := setA p3 "height" (AttrVal.num (ctx.round h))
    { e with props := p4 })
  let ctx3 := ctx2.applyAttributes k finalAttrs
  addElement ctx3 k

def fillRect (ctx : Ctx) (x y w h : ℚ) : Ctx :=
  rect ctx x y w h (some
    ((match lookupA ctx.attributes "fill" with
      | some v => [("fill", v)]
      | none => []) ++ [("stroke", AttrVal.str "none")]))

def pointerRect (ctx : Ctx) (x y w h : ℚ) : Ctx :=
  rect ctx x y w h (some [("opacity", AttrVal.num 0), ("pointer-events", AttrVal.str "auto")])

def clearRect (ctx : Ctx) (x y w h : ℚ) : Ctx :=
  rect ctx x y w h (some [("fill", AttrVal.str ctx.backgroundFillStyle),
                          ("stroke", AttrVal.str "none")])

def beginPath (ctx : Ctx) : Ctx :=
  { ctx with path := [], pen := none }

def moveTo (ctx : Ctx) (x y : ℚ) : Ctx :=
  let x := ctx.round x
  let y := ctx.round y
  { ctx with path := ctx.path ++ [PathCmd.M x y], pen := some (x, y) }

def lineTo (ctx : Ctx) (x y : ℚ) : Ctx :=
  let x := ctx.round x
  let y := ctx.round y
  { ctx with path := ctx.path ++ [PathCmd.L x y], pen := some (x, y) }

def bezierCurveTo (ctx : Ctx) (x1 y1 x2 y2 x y : ℚ) : Ctx :=
  let x := ctx.round x
  let y := ctx.round y
  { ctx with
      path := ctx.path ++
        [PathCmd.C (ctx.round x1) (ctx.round y1) (ctx.round x2) (ctx.round y2) x y]
      pen := some (x, y) }

def quadraticCurveTo (ctx : Ctx) (x1 y1 x y : ℚ) : Ctx :=
  let x := ctx.round x
  let y := ctx.round y
  { ctx with
      path := ctx.path ++ [PathCmd.Q (ctx.round x1) (ctx.round y1) x y]
      pen := some (x, y) }

def closePath (ctx : Ctx) : Ctx :=
  { ctx with path := ctx.path ++ [PathCmd.Z] }

/-- The attribute object that `fill(attributes?)` applies to the new
path element: with no argument, a copy of the current paint attributes
with `stroke` overridden to `"none"`; with an explicit argument, that
object unchanged; in both cases `d` is then set to the pending path. -/
def fillAttrsUsed (ctx : Ctx) (attrs : Option AttrMap) : AttrMap :=
  match attrs with
  | none => setA (setA ctx.attributes "stroke" (AttrVal.str "none")) "d" (AttrVal.pathD ctx.path)
  | some a => setA a "d" (AttrVal.pathD ctx.path)

def fill (ctx : Ctx) (attrs : Option AttrMap) : Ctx :=
  let (ctx1, k) := createElement ctx "path"
  let ctx2 := ctx1.applyAttributes k (fillAttrsUsed ctx attrs)
  addElement ctx2 k

/-- The attribute object that `stroke()` applies: a copy of the paint
attributes with `fill` overridden to `"none"` and `d` the pending
path. -/
def strokeAttrsUsed (ctx : Ctx) : AttrMap :=
  setA (setA ctx.attributes "fill" (AttrVal.str "none")) "d" (AttrVal.pathD ctx.path)

def stroke (ctx : Ctx) : Ctx :=
  let (ctx1, k) := createElement ctx "path"
  let ctx2 := ctx1.applyAttributes k (strokeAttrsUsed ctx)
  addElement ctx2 k

/-- `fillText(text, x, y)`: a zero-length string appends nothing. -/
def fillText (ctx : Ctx) (text : String) (x y : ℚ) : Ctx :=
  if text = "" then ctx
  else
    let (ctx1, k) := createElement ctx "text"
    let ctx2 := updateElem ctx1 k (fun e =>
      { e with
          textContent := some text
          props := setA (setA e.props "x" (AttrVal.num (ctx.round x)))
                        "y" (AttrVal.num (ctx.round y)) })
    let ctx3 := ctx2.applyAttributes k (setA ctx.attributes "stroke" (AttrVal.str "none"))
    addElement ctx3 k

/-- `save()`: push copies of `state` and `attributes`.  The JS array
push/pop pair at the array end is modelled as cons/uncons at the list
head. -/
def save (ctx : Ctx) : Ctx :=
  { ctx with stateStack := (ctx.state, ctx.attributes) :: ctx.stateStack }

/-- `restore()`: pop and reinstate the most recent save; with an empty
stack, `pop()` yields `undefined` and nothing happens. -/
def restore (ctx : Ctx) : Ctx :=
  match ctx.stateStack with
  | [] => ctx
  | (s, a) :: rest => { ctx with state := s, attributes := a, stateStack := rest }

/-- `openGroup(cls?, id?)`. -/
def openGroup (ctx : Ctx) (cls id : Option String) : Ctx :=
  let (ctx1, k) := createElement ctx "g"
  let ctx2 := updateElem ctx1 k (fun e =>
    let e1 := match cls with
      | some c => { e with className := some (vfName c), props := setA e.props "className" (AttrVal.str (vfName c)) }
      | none => e
    match id with
    | some i => { e1 with id := some (vfName i), props := setA e1.props "id" (AttrVal.str (vfName i)) }
    | none => e1)
  let ctx3 := { ctx2 with groups := ctx2.groups ++ [k] }
  -- `this.parent` is unchanged since entry, so the original context's
  -- insertion point is read here
  let ctx4 := match ctx.parent with
    | some p => pushChild ctx3 p k
    | none => ctx3
  let ctx5 := { ctx4 with parent := some k }
  let ctx6 := ctx5.applyAttributes k ctx.attributes
  let ctx7 := { ctx6 with
    groupAttributes :=
      ctx6.groupAttributes ++ [mergeA ((ctx6.groupAttributes.getLast?).getD []) ctx.attributes] }
  registerElem ctx7 k

/-- `closeGroup()`: unconditionally pop the top frame and reinstate the
last remaining group as insertion point (`undefined` when none
remains).  The source performs no emptiness check. -/
def closeGroup (ctx : Ctx) : Ctx :=
  let groups := ctx.groups.dropLast
  { ctx with
      groups := groups
      groupAttributes := ctx.groupAttributes.dropLast
      parent := groups.getLast? }

def openRotation (ctx : Ctx) (angleDegrees x y : ℚ) : Ctx :=
  let k := ctx.nextElementKey
  let ctx1 := openGroup ctx none none
  updateElem ctx1 k (fun e =>
    { e with props := setA e.props "transform" (AttrVal.tfm angleDegrees x y) })

def closeRotation (ctx : Ctx) : Ctx := closeGroup ctx

/-- `setFont`: the resolved `FontInfo` fields (family, size, weight,
style) are merged into both `attributes` and `state`; `css` is the
CSS string computed by the host library. -/
def setFont (ctx : Ctx) (family : String) (size : AttrVal) (weight style css : String) : Ctx :=
  let fontAttributes : AttrMap :=
    [("font-family", AttrVal.str family), ("font-size", size),
     ("font-weight", AttrVal.str weight), ("font-style", AttrVal.str style)]
  { ctx with
      fontCSSString := css
      attributes := mergeA ctx.attributes fontAttributes
      state := mergeA ctx.state fontAttributes }

/-- One drawing command of the public protocol.  (`arc` touches only the
pending path and the pen and needs real trigonometry; it is modelled
separately over `ℝ` below.  `add`, which appends an externally built
node, and the pure `measureText` do not occur in the claims.) -/
inductive Op where
  | setFillStyle (s : String)
  | setBackgroundFillStyle (s : String)
  | setStrokeStyle (s : String)
  | setLineWidth (w : ℚ)
  | setLineCap (s : String)
  | setLineDash (l : List ℚ)
  | setFont (family : String) (size : AttrVal) (weight style css : String)
  | scale (x y : ℚ)
  | resize (w h : ℚ)
  | rect (x y w h : ℚ) (attrs : Option AttrMap)
  | fillRect (x y w h : ℚ)
  | pointerRect (x y w h : ℚ)
  | clearRect (x y w h : ℚ)
  | beginPath
  | moveTo (x y : ℚ)
  | lineTo (x y : ℚ)
  | bezierCurveTo (x1 y1 x2 y2 x y : ℚ)
  | quadraticCurveTo (x1 y1 x y : ℚ)
  | closePath
  | fill (attrs : Option AttrMap)
  | stroke
  | fillText (s : String) (x y : ℚ)
  | save
  | restore
  | openGroup (cls id : Option String)
  | closeGroup
  | openRotation (deg x y : ℚ)
  | closeRotation
  | clear
  deriving DecidableEq

/-- Interpret one command. -/
def step (ctx : Ctx) : Op → Ctx
  | Op.setFillStyle s => setFillStyle ctx s
  | Op.setBackgroundFillStyle s => setBackgroundFillStyle ctx s
  | Op.setStrokeStyle s => setStrokeStyle ctx s
  | Op.setLineWidth w => setLineWidth ctx w
  | Op.setLineCap s => setLineCap ctx s
  | Op.setLineDash l => setLineDash ctx l
  | Op.setFont f sz w st css => setFont ctx f sz w st css
  | Op.scale x y => scale ctx x y
  | Op.resize w h => resize ctx w h
  | Op.rect x y w h a => rect ctx x y w h a
  | Op.fillRect x y w h => fillRect ctx x y w h
  | Op.pointerRect x y w h => pointerRect ctx x y w h
  | Op.clearRect x y w h => clearRect ctx x y w h
  | Op.beginPath => beginPath ctx
  | Op.moveTo x y => moveTo ctx x y
  | Op.lineTo x y => lineTo ctx x y
  | Op.bezierCurveTo x1 y1 x2 y2 x y => bezierCurveTo ctx x1 y1 x2 y2 x y
  | Op.quadraticCurveTo x1 y1 x y => quadraticCurveTo ctx x1 y1 x y
  | Op.closePath => closePath ctx
  | Op.fill a => fill ctx a
  | Op.stroke => stroke ctx
  | Op.fillText s x y => fillText ctx s x y
  | Op.save => save ctx
  | Op.restore => restore ctx
  | Op.openGroup c i => openGroup ctx c i
  | Op.closeGroup => closeGroup ctx
  | Op.openRotation d x y => openRotation ctx d x y
  | Op.closeRotation => closeRotation ctx
  | Op.clear => clear ctx

/-- Run a drawing pass from a fresh context. -/
def run (places : ℕ) (w h : ℚ) (ops : List Op) : Ctx :=
  ops.foldl step (initCtx places w h)

end VexFlowRN

namespace ArcModel

/-!
Model of `ReactNativeSVGContext.arc` over `ℝ`.  The method reads and
writes only `this.path` and `this.pen` (besides the read-only precision
fields), so it is embedded as a function from the pending command list
and pen to the new command list and pen.  Only `M` and `A` commands are
produced by `arc`, but the command list type is shared with the rest of
the path grammar through `VexFlowRN.PathCmd ℝ`.
-/

open VexFlowRN

noncomputable section

open scoped Classical

/-- `Math.round(n * precision) / precision` over `ℝ`. -/
def roundR (places : ℕ) (x : ℝ) : ℝ :=
  ((⌊x * 10 ^ places + 1 / 2⌋ : ℤ) : ℝ) / 10 ^ places

/-- Truncation toward zero, the rounding used by the JS `%` operator. -/
def truncR (x : ℝ) : ℤ := if x < 0 then ⌈x⌉ else ⌊x⌋

/-- The JS remainder `a % b` (sign follows the dividend). -/
def jsMod (a b : ℝ) : ℝ := a - b * truncR (a / b)

/-- `normalizeAngle`: bring an angle into `[0, 2π)`. -/
def normalizeAngle (angle : ℝ) : ℝ :=
  let a := jsMod angle (2 * Real.pi)
  if a < 0 then a + 2 * Real.pi else a

/-- The guard of the full-circle branch of `arc`, exactly as written in
the source: the angular span, measured in the direction of travel
selected by the `counterclockwise` flag, is at least a full turn, or
the two normalized angles coincide. -/
def fullCircleCond (startAngle endAngle : ℝ) (ccw : Bool) : Prop :=
  (ccw = false ∧ endAngle - startAngle ≥ 2 * Real.pi) ∨
  (ccw = true ∧ startAngle - endAngle ≥ 2 * Real.pi) ∨
  normalizeAngle startAngle = normalizeAngle endAngle

/-- `arc(x, y, radius, startAngle, endAngle, counterclockwise)`: append
the move and elliptical-arc commands to the pending path and update the
pen. -/
def arc (places : ℕ) (path : List (PathCmd ℝ)) (_pen : Option (ℝ × ℝ))
    (x y radius startAngle endAngle : ℝ) (ccw : Bool) :
    List (PathCmd ℝ) × Option (ℝ × ℝ) :=
  let x0 := roundR places (x + radius * Real.cos startAngle)
  let y0 := roundR places (y + radius * Real.sin startAngle)
  if fullCircleCond startAngle endAngle ccw then
    let x1 := roundR places (x + radius * Real.cos (startAngle + Real.pi))
    let y1 := roundR places (y + radius * Real.sin (startAngle + Real.pi))
    let r := roundR places radius
    (path ++ [PathCmd.M x0 y0, PathCmd.A r false false x1 y1, PathCmd.A r false false x0 y0],
     some (x0, y0))
  else
    let x1 := roundR places (x + radius * Real.cos endAngle)
    let y1 := roundR places (y + radius * Real.sin endAngle)
    let normalizedStart := normalizeAngle startAngle
    let normalizedEnd := normalizeAngle endAngle
    let large0 : Bool := if |normalizedEnd - normalizedStart| < Real.pi then ccw else !ccw
    let large : Bool := if normalizedStart > normalizedEnd then !large0 else large0
    let sweep : Bool := !ccw
    let r := roundR places radius
    (path ++ [PathCmd.M x0 y0, PathCmd.A r large sweep x1 y1], some (x1, y1))

/-- The large-arc flag carried by a command (`false` for non-arc
commands). -/
def largeFlag : PathCmd ℝ → Bool
  | PathCmd.A _ large _ _ _ => large
  | _ => false

/-- The sweep flag carried by a command (`false` for non-arc
commands). -/
def sweepFlag : PathCmd ℝ → Bool
  | PathCmd.A _ _ sweep _ _ => sweep
  | _ => false

/-- Whether a command is an elliptical-arc command. -/
def isArc : PathCmd ℝ → Bool
  | PathCmd.A _ _ _ _ _ => true
  | _ => false

end

end ArcModel

namespace TextModel

/-!
Model of src/textMeasurement.ts.  Font sizes and widths are modelled by
`ℚ`; the text is the list of code points the JS `for...of` loop
iterates over (SMuFL glyphs all lie in the Basic Multilingual Plane, so
UTF-16 indexing and code-point iteration agree on the classification
performed here).  The CSS font-string level (`parseFontSize` /
`parseFontFamily`) is regex tokenizing upstream of the measurement
algorithm; the model takes the parsed pixel size and family directly,
which is the level at which the measurement contract is stated.
-/

/-- The per-family metric record of `FONT_METRICS`. -/
structure FontMetrics where
  avgCharWidth : ℚ
  ascent : ℚ
  descent : ℚ
  isMusicFont : Bool
  deriving DecidableEq, Repr

/-- `FONT_METRICS` (the `default` entry is kept separately as
`defaultMetrics`). -/
def FONT_METRICS : List (String × FontMetrics) :=
  [("bravura", ⟨0.25, 0.8, 0.2, true⟩),
   ("petaluma", ⟨0.25, 0.8, 0.2, true⟩),
   ("gonville", ⟨0.25, 0.8, 0.2, true⟩),
   ("leland", ⟨0.25, 0.8, 0.2, true⟩),
   ("academico", ⟨0.55, 0.8, 0.2, false⟩),
   ("arial", ⟨0.52, 0.76, 0.24, false⟩),
   ("times new roman", ⟨0.48, 0.78, 0.22, false⟩),
   ("serif", ⟨0.5, 0.78, 0.22, false⟩),
   ("sans-serif", ⟨0.52, 0.76, 0.24, false⟩)]

/-- `FONT_METRICS['default']`. -/
def defaultMetrics : FontMetrics := ⟨0.55, 0.8, 0.2, false⟩

/-- `SMUFL_GLYPH_ADVANCE_WIDTHS` from src/smuflGlyphWidths.ts: advance
widths in staff spaces (1 em = 4 staff spaces), keyed by glyph
character. -/
def SMUFL_GLYPH_ADVANCE_WIDTHS : List (Char × ℚ) :=
  [('\uE262', (0.996 : ℚ)),
   ('\uE260', (0.904 : ℚ)),
   ('\uE261', (0.672 : ℚ)),
   ('\uE263', (1.0 : ℚ)),
   ('\uE264', (1.652 : ℚ)),
   ('\uE26A', (1.268 : ℚ)),
   ('\uE280', (0.908 : ℚ)),
   ('\uE282', (0.716 : ℚ)),
   ('\uE265', (1.652 : ℚ)),
   ('\uE266', (1.376 : ℚ)),
   ('\uE267', (0.996 : ℚ)),
   ('\uE268', (0.996 : ℚ)),
   ('\uE269', (2.076 : ℚ)),
   ('\uE26C', (0.564 : ℚ)),
   ('\uE26D', (0.564 : ℚ)),
   ('\uE26E', (0.308 : ℚ)),
   ('\uE26F', (0.308 : ℚ)),
   ('\uE270', (0.904 : ℚ)),
   ('\uE275', (1.044 : ℚ)),
   ('\uE272', (0.76 : ℚ)),
   ('\uE0A0', (1.18 : ℚ)),
   ('\uE0A1', (1.18 : ℚ)),
   ('\uE0A2', (1.18 : ℚ)),
   ('\uE0A3', (1.18 : ℚ)),
   ('\uE0A4', (1.18 : ℚ)),
   ('\uE0A9', (1.328 : ℚ)),
   ('\uE0AA', (1.328 : ℚ)),
   ('\uE0AB', (1.12 : ℚ)),
   ('\uE0D8', (1.128 : ℚ)),
   ('\uE0D9', (1.128 : ℚ)),
   ('\uE0DB', (0.996 : ℚ)),
   ('\uE0BC', (1.312 : ℚ)),
   ('\uE0BD', (1.312 : ℚ)),
   ('\uE0BE', (1.12 : ℚ)),
   ('\uE100', (1.688 : ℚ)),
   ('\uE101', (1.688 : ℚ)),
   ('\uE102', (1.552 : ℚ)),
   ('\uE103', (1.552 : ℚ)),
   ('\uE050', (2.684 : ℚ)),
   ('\uE05C', (2.536 : ℚ)),
   ('\uE062', (2.756 : ℚ)),
   ('\uE06A', (1.14 : ℚ)),
   ('\uE06B', (1.14 : ℚ)),
   ('\uE06D', (1.636 : ℚ)),
   ('\uE06E', (1.084 : ℚ)),
   ('\uE07A', (1.792 : ℚ)),
   ('\uE07B', (1.692 : ℚ)),
   ('\uE07C', (1.836 : ℚ)),
   ('\uE080', (1.688 : ℚ)),
   ('\uE081', (1.084 : ℚ)),
   ('\uE082', (1.44 : ℚ)),
   ('\uE083', (1.356 : ℚ)),
   ('\uE084', (1.52 : ℚ)),
   ('\uE085', (1.356 : ℚ)),
   ('\uE086', (1.44 : ℚ)),
   ('\uE087', (1.316 : ℚ)),
   ('\uE088', (1.44 : ℚ)),
   ('\uE089', (1.44 : ℚ)),
   ('\uE08A', (2.0 : ℚ)),
   ('\uE08B', (2.0 : ℚ)),
   ('\uE08C', (1.0 : ℚ)),
   ('\uE08E', (0.752 : ℚ)),
   ('\uE097', (1.64 : ℚ)),
   ('\uE098', (1.64 : ℚ)),
   ('\uE4E1', (2.352 : ℚ)),
   ('\uE4E2', (1.176 : ℚ)),
   ('\uE4E3', (1.0 : ℚ)),
   ('\uE4E4', (1.0 : ℚ)),
   ('\uE4E5', (1.0 : ℚ)),
   ('\uE4E6', (0.752 : ℚ)),
   ('\uE4E7', (1.0 : ℚ)),
   ('\uE4E8', (1.112 : ℚ)),
   ('\uE4E9', (1.352 : ℚ)),
   ('\uE4EA', (1.496 : ℚ)),
   ('\uE4EB', (1.652 : ℚ)),
   ('\uE4EC', (1.892 : ℚ)),
   ('\uE4ED', (2.132 : ℚ)),
   ('\uE4EE', (2.288 : ℚ)),
   ('\uE240', (0.796 : ℚ)),
   ('\uE241', (1.0 : ℚ)),
   ('\uE242', (0.796 : ℚ)),
   ('\uE243', (1.0 : ℚ)),
   ('\uE244', (0.896 : ℚ)),
   ('\uE245', (1.0 : ℚ)),
   ('\uE246', (0.896 : ℚ)),
   ('\uE247', (1.0 : ℚ)),
   ('\uE248', (0.896 : ℚ)),
   ('\uE249', (1.0 : ℚ)),
   ('\uE24A', (0.896 : ℚ)),
   ('\uE24B', (1.0 : ℚ)),
   ('\uE24C', (0.896 : ℚ)),
   ('\uE24D', (1.0 : ℚ)),
   ('\uE24E', (0.896 : ℚ)),
   ('\uE24F', (1.0 : ℚ)),
   ('\uE250', (0.748 : ℚ)),
   ('\uE251', (1.08 : ℚ)),
   ('\uE252', (0.748 : ℚ)),
   ('\uE253', (1.08 : ℚ)),
   ('\uE254', (0.748 : ℚ)),
   ('\uE255', (1.08 : ℚ)),
   ('\uE4A0', (0.668 : ℚ)),
   ('\uE4A1', (0.668 : ℚ)),
   ('\uE4A2', (0.472 : ℚ)),
   ('\uE4A3', (0.472 : ℚ)),
   ('\uE4A4', (0.472 : ℚ)),
   ('\uE4A5', (0.472 : ℚ)),
   ('\uE4A6', (0.472 : ℚ)),
   ('\uE4A7', (0.472 : ℚ)),
   ('\uE4A8', (0.388 : ℚ)),
   ('\uE4A9', (0.388 : ℚ)),
   ('\uE4AA', (0.532 : ℚ)),
   ('\uE4AB', (0.532 : ℚ)),
   ('\uE4AC', (0.668 : ℚ)),
   ('\uE4AD', (0.668 : ℚ)),
   ('\uE4AE', (0.668 : ℚ)),
   ('\uE4AF', (0.668 : ℚ)),
   ('\uE4B0', (0.668 : ℚ)),
   ('\uE4B1', (0.668 : ℚ)),
   ('\uE4B2', (0.472 : ℚ)),
   ('\uE4B3', (0.472 : ℚ)),
   ('\uE4B4', (0.472 : ℚ)),
   ('\uE4B5', (0.472 : ℚ)),
   ('\uE4B6', (0.668 : ℚ)),
   ('\uE4B7', (0.668 : ℚ)),
   ('\uE4B8', (0.668 : ℚ)),
   ('\uE4B9', (0.668 : ℚ)),
   ('\uE520', (1.164 : ℚ)),
   ('\uE521', (1.236 : ℚ)),
   ('\uE522', (1.264 : ℚ)),
   ('\uE523', (1.168 : ℚ)),
   ('\uE524', (0.936 : ℚ)),
   ('\uE525', (1.236 : ℚ)),
   ('\uE526', (0.868 : ℚ)),
   ('\uE560', (1.804 : ℚ)),
   ('\uE566', (1.384 : ℚ)),
   ('\uE567', (1.384 : ℚ)),
   ('\uE568', (1.5 : ℚ)),
   ('\uE569', (1.5 : ℚ)),
   ('\uE56C', (1.132 : ℚ)),
   ('\uE56D', (1.544 : ℚ)),
   ('\uE56E', (2.0 : ℚ)),
   ('\uE587', (1.384 : ℚ)),
   ('\uE4C0', (1.896 : ℚ)),
   ('\uE4C1', (1.896 : ℚ)),
   ('\uE4C2', (1.556 : ℚ)),
   ('\uE4C3', (1.556 : ℚ)),
   ('\uE4C4', (2.32 : ℚ)),
   ('\uE4C5', (2.32 : ℚ)),
   ('\uE4C6', (2.32 : ℚ)),
   ('\uE4C7', (2.32 : ℚ)),
   ('\uE4D1', (1.0 : ℚ)),
   ('\uE4D2', (0.768 : ℚ)),
   ('\uE4D3', (0.528 : ℚ)),
   ('\uE4D5', (1.24 : ℚ)),
   ('\uE4D6', (1.24 : ℚ)),
   ('\uE040', (0.5 : ℚ)),
   ('\uE046', (1.624 : ℚ)),
   ('\uE047', (1.808 : ℚ)),
   ('\uE048', (2.572 : ℚ)),
   ('\uE030', (0.16 : ℚ)),
   ('\uE031', (0.64 : ℚ)),
   ('\uE032', (0.64 : ℚ)),
   ('\uE1E7', (0.4 : ℚ)),
   ('\uE210', (0.0 : ℚ)),
   ('\uE1FD', (0.3 : ℚ)),
   ('\uE1FE', (0.6 : ℚ)),
   ('\uE1FF', (0.9 : ℚ)),
   ('\uE880', (0.708 : ℚ)),
   ('\uE881', (0.464 : ℚ)),
   ('\uE882', (0.616 : ℚ)),
   ('\uE883', (0.58 : ℚ)),
   ('\uE884', (0.652 : ℚ)),
   ('\uE885', (0.58 : ℚ)),
   ('\uE886', (0.616 : ℚ)),
   ('\uE887', (0.56 : ℚ)),
   ('\uE888', (0.616 : ℚ)),
   ('\uE889', (0.616 : ℚ)),
   ('\uE88A', (0.32 : ℚ)),
   ('\uE650', (2.856 : ℚ)),
   ('\uE655', (1.364 : ℚ)),
   ('\uE220', (0.952 : ℚ)),
   ('\uE221', (0.952 : ℚ)),
   ('\uE222', (0.952 : ℚ)),
   ('\uE223', (0.952 : ℚ)),
   ('\uE224', (0.952 : ℚ)),
   ('\uE225', (1.064 : ℚ)),
   ('\uE226', (1.56 : ℚ)),
   ('\uE227', (2.064 : ℚ)),
   ('\uE228', (2.56 : ℚ)),
   ('\uE610', (0.84 : ℚ)),
   ('\uE612', (0.752 : ℚ)),
   ('\uE614', (0.804 : ℚ)),
   ('\uE5E0', (1.056 : ℚ)),
   ('\uE5D0', (1.436 : ℚ)),
   ('\uE5D1', (1.224 : ℚ)),
   ('\uE510', (1.424 : ℚ)),
   ('\uE511', (1.076 : ℚ)),
   ('\uE512', (1.176 : ℚ)),
   ('\uE513', (2.272 : ℚ)),
   ('\uE514', (1.924 : ℚ)),
   ('\uE515', (2.024 : ℚ)),
   ('\uE0F5', (0.38 : ℚ)),
   ('\uE0F6', (0.38 : ℚ))
  ]

/-- `isSmuflGlyph`: first UTF-16 unit in the SMuFL Private Use Area
U+E000-U+F8FF. -/
def isSmuflGlyph (c : Char) : Bool :=
  0xe000 ≤ c.toNat ∧ c.toNat ≤ 0xf8ff

/-- `getSmuflGlyphWidth`: table lookup, `undefined` when absent. -/
def getSmuflGlyphWidth (c : Char) : Option ℚ :=
  go SMUFL_GLYPH_ADVANCE_WIDTHS
where go : List (Char × ℚ) → Option ℚ
  | [] => none
  | kv :: rest => if kv.1 = c then some kv.2 else go rest

/-- The first comma-separated segment of a character sequence
(`split(',')[0]`). -/
def firstCommaSegment : List Char → List Char
  | [] => []
  | c :: rest => if c = ',' then [] else c :: firstCommaSegment rest

/-- Strip leading and trailing whitespace (`trim()`). -/
def trimChars (l : List Char) : List Char :=
  ((l.dropWhile Char.isWhitespace).reverse.dropWhile Char.isWhitespace).reverse

/-- `getFontMetrics`: case-insensitive first comma-separated token of
the family, falling back to the default entry.
`fontFamily.toLowerCase().split(',')[0].trim()` is modelled on the
code-point sequence (the table's family names are ASCII, so ASCII
lowercasing matches the JS behaviour on every name that can hit the
table). -/
def getFontMetrics (fontFamily : String) : FontMetrics :=
  let normalizedFamily := trimChars (firstCommaSegment (fontFamily.data.map Char.toLower))
  (go normalizedFamily FONT_METRICS).getD defaultMetrics
where go (key : List Char) : List (String × FontMetrics) → Option FontMetrics
  | [] => none
  | kv :: rest => if kv.1.data = key then some kv.2 else go key rest

/-- `measureSmuflText`: per-character accumulation. -/
def measureSmuflText (text : List Char) (fontSizeInPixels : ℚ) : ℚ :=
  text.foldl
    (fun totalWidth c =>
      if isSmuflGlyph c then
        match getSmuflGlyphWidth c with
        | some glyphWidth => totalWidth + glyphWidth * (fontSizeInPixels / 4)
        | none => totalWidth + 0.25 * fontSizeInPixels
      else totalWidth + 0.55 * fontSizeInPixels)
    0

/-- The `TextMetrics` record returned by
`MockCanvasContext.measureText`. -/
structure MockTextMetrics where
  width : ℚ
  actualBoundingBoxLeft : ℚ
  actualBoundingBoxRight : ℚ
  actualBoundingBoxAscent : ℚ
  actualBoundingBoxDescent : ℚ
  fontBoundingBoxAscent : ℚ
  fontBoundingBoxDescent : ℚ
  alphabeticBaseline : ℚ
  emHeightAscent : ℚ
  emHeightDescent : ℚ
  deriving DecidableEq, Repr

/-- Does the text start with a SMuFL private-use character
(`text.length > 0 && isSmuflGlyph(text[0])`)? -/
def firstIsSmufl : List Char → Bool
  | [] => false
  | c :: _ => isSmuflGlyph c

/-- `MockCanvasContext.measureText`, taking the pixel size and family
parsed from the context's font string. -/
def measureText (fontSize : ℚ) (fontFamily : String) (text : List Char) : MockTextMetrics :=
  let metrics := getFontMetrics fontFamily
  let width :=
    if metrics.isMusicFont ∧ firstIsSmufl text then
      measureSmuflText text fontSize
    else
      (text.length : ℚ) * fontSize * metrics.avgCharWidth
  let ascent := fontSize * metrics.ascent
  let descent := fontSize * metrics.descent
  { width := width
    actualBoundingBoxLeft := 0
    actualBoundingBoxRight := width
    actualBoundingBoxAscent := ascent
    actualBoundingBoxDescent := descent
    fontBoundingBoxAscent := ascent
    fontBoundingBoxDescent := descent
    alphabeticBaseline := 0
    emHeightAscent := ascent
    emHeightDescent := descent }

end TextModel

namespace VexFlowRN

/-! ### Association-list lemmas -/

theorem lookupA_append_of_none (m1 m2 : AttrMap) (k : String)
    (h : lookupA m1 k = none) : lookupA (m1 ++ m2) k = lookupA m2 k := by
  induction m1 with
  | nil => rfl
  | cons kv rest ih =>
    by_cases hk : kv.1 = k
    · simp [lookupA, hk] at h
    · simpa [lookupA, hk] using ih (by simpa [lookupA, hk] using h)

theorem lookupA_none_of_not_any (m : AttrMap) (k : String)
    (h : ¬ m.any (fun kv => kv.1 = k) = true) : lookupA m k = none := by
  induction m with
  | nil => rfl
  | cons kv rest ih =>
    simp only [List.any_cons, Bool.or_eq_true_iff, decide_eq_true_eq] at h
    push_neg at h
    simp [lookupA, h.1, ih (by simpa using h.2)]

theorem lookupA_mapupd_self (m : AttrMap) (k : String) (v : AttrVal)
    (h : m.any (fun kv => kv.1 = k) = true) :
    lookupA (m.map (fun kv => if kv.1 = k then (kv.1, v) else kv)) k = some v := by
  induction m with
  | nil => simp at h
  | cons kv rest ih =>
    by_cases hk : kv.1 = k
    · simp [lookupA, hk]
    · simp only [List.any_cons, Bool.or_eq_true_iff, decide_eq_true_eq] at h
      rcases h with h | h
    
      · exact absurd h hk
      · simpa [lookupA, hk] using ih h

theorem lookupA_mapupd_ne (m : AttrMap) (k k2 : String) (v : AttrVal) (h : k2 ≠ k) :
    lookupA (m.map (fun kv => if kv.1 = k then (kv.1, v) else kv)) k2 = lookupA m k2 := by
  induction m with
  | nil => rfl
  | cons kv rest ih =>
    by_cases hk : kv.1 = k
    · have h2 : ¬ (k = k2) := fun hh => h hh.symm
      simp [lookupA, hk, h2, ih]
    · by_cases hk2 : kv.1 = k2 <;> simp [lookupA, hk, hk2, h, ih]

theorem lookupA_setA_self (m : AttrMap) (k : String) (v : AttrVal) :
    lookupA (setA m k v) k = some v := by
  unfold setA
  by_cases h : m.any (fun kv => kv.1 = k) = true
  · simpa [h] using lookupA_mapupd_self m k v h
  · rw [if_neg h]
    rw [lookupA_append_of_none _ _ _ (lookupA_none_of_not_any m k h)]
    simp [lookupA]

theorem lookupA_append_singleton_ne (m : AttrMap) (k k2 : String) (v : AttrVal)
    (h : k2 ≠ k) : lookupA (m ++ [(k, v)]) k2 = lookupA m k2 := by
  induction m with
  | nil =>
    have h2 : ¬ (k = k2) := fun hx => h hx.symm
    simp [lookupA, h2]
  | cons kv rest ih =>
    by_cases hk2 : kv.1 = k2 <;> simp [lookupA, hk2, ih]

theorem lookupA_setA_ne (m : AttrMap) (k k2 : String) (v : AttrVal) (h : k2 ≠ k) :
    lookupA (setA m k v) k2 = lookupA m k2 := by
  unfold setA
  by_cases hh : m.any (fun kv => kv.1 = k) = true
  · simpa [hh] using lookupA_mapupd_ne m k k2 v h
  · rw [if_neg hh]
    exact lookupA_append_singleton_ne m k k2 v h

/-- Every key of `setA m k v` is `k` or a key of `m`. -/
theorem setA_keys (m : AttrMap) (k : String) (v : AttrVal) :
    ∀ kv ∈ setA m k v, kv.1 = k ∨ ∃ kv2 ∈ m, kv.1 = kv2.1 := by
  intro kv hkv
  unfold setA at hkv
  by_cases h : m.any (fun kv => kv.1 = k) = true
  · rw [if_pos h] at hkv
    rcases List.mem_map.mp hkv with ⟨kv2, hkv2, heq⟩
    by_cases h2 : kv2.1 = k
    · left; rw [← heq]; simp [h2]
    · right; exact ⟨kv2, hkv2, by rw [← heq]; simp [h2]⟩
  · rw [if_neg h] at hkv
    rcases List.mem_append.mp hkv with h2 | h2
    · right; exact ⟨kv, h2, rfl⟩
    · left
      have : kv = (k, v) := List.mem_singleton.mp h2
      rw [this]

end VexFlowRN

namespace VexFlowRN

/-! ### Store lemmas -/

theorem getStored_go_map_update (j k : ℕ) (f : Elem → Elem) (l : List (ℕ × Elem)) :
    getStored.go k (l.map (fun kv => if kv.1 = j then (kv.1, f kv.2) else kv)) =
      if j = k then (getStored.go k l).map f else getStored.go k l := by
  induction l with
  | nil => by_cases h : j = k <;> simp [getStored.go, h]
  | cons kv rest ih =>
    by_cases hj : kv.1 = j
    · by_cases hk : j = k
      · simp [getStored.go, hj, hk, ih]
      · have : ¬ kv.1 = k := by rw [hj]; exact hk
        simp [getStored.go, hj, hk, this, ih]
    · by_cases hk : kv.1 = k
      · have h1 : ¬ (j = k) := by rw [← hk]; exact fun hh => hj hh.symm
        have h2 : ¬ (k = j) := fun hh => h1 hh.symm
        simp [getStored.go, hj, hk, h1, h2]
      · simp [getStored.go, hj, hk, ih]

theorem getStored_updateElem (ctx : Ctx) (j k : ℕ) (f : Elem → Elem) :
    getStored (updateElem ctx j f) k =
      if j = k then (getStored ctx k).map f else getStored ctx k := by
  unfold getStored updateElem
  exact getStored_go_map_update j k f ctx.store

theorem getStored_go_append_of_none (k : ℕ) (l1 l2 : List (ℕ × Elem))
    (h : getStored.go k l1 = none) :
    getStored.go k (l1 ++ l2) = getStored.go k l2 := by
  induction l1 with
  | nil => rfl
  | cons kv rest ih =>
    by_cases hk : kv.1 = k
    · simp [getStored.go, hk] at h
    · simp only [List.cons_append, getStored.go, if_neg hk] at h ⊢
      exact ih h

theorem getStored_go_none_of_lt (k : ℕ) (l : List (ℕ × Elem))
    (h : ∀ kv ∈ l, kv.1 < k) : getStored.go k l = none := by
  induction l with
  | nil => rfl
  | cons kv rest ih =>
    have h1 : ¬ kv.1 = k := Nat.ne_of_lt (h kv (by simp))
    simp only [getStored.go, if_neg h1]
    exact ih (fun kv2 h2 => h kv2 (by simp [h2]))

/-- Reading back the element just allocated by `createElement`. -/
theorem getStored_createElement_self (ctx : Ctx) (typ : String)
    (h : ∀ kv ∈ ctx.store, kv.1 < ctx.nextElementKey) :
    getStored (createElement ctx typ).1 ctx.nextElementKey =
      some { typ := typ
             props := [("key", AttrVal.num (ctx.nextElementKey : ℚ))]
             children := [] } := by
  unfold getStored createElement
  rw [getStored_go_append_of_none _ _ _ (getStored_go_none_of_lt _ _ h)]
  simp [getStored.go]

/-- Projection facts for the context-shaped helpers (all definitional). -/
theorem createElement_fields (ctx : Ctx) (typ : String) :
    (createElement ctx typ).1.nextElementKey = ctx.nextElementKey + 1 ∧
    (createElement ctx typ).1.parent = ctx.parent ∧
    (createElement ctx typ).1.groupAttributes = ctx.groupAttributes ∧
    (createElement ctx typ).1.places = ctx.places ∧
    (createElement ctx typ).2 = ctx.nextElementKey := by
  exact ⟨rfl, rfl, rfl, rfl, rfl⟩

theorem updateElem_fields (ctx : Ctx) (k : ℕ) (f : Elem → Elem) :
    (updateElem ctx k f).nextElementKey = ctx.nextElementKey ∧
    (updateElem ctx k f).parent = ctx.parent ∧
    (updateElem ctx k f).groupAttributes = ctx.groupAttributes := by
  exact ⟨rfl, rfl, rfl⟩

theorem registerElem_store (ctx : Ctx) (k : ℕ) :
    (registerElem ctx k).store = ctx.store := by
  unfold registerElem
  rcases getStored ctx k with _ | e
  · rfl
  · rcases e with ⟨typ, props, children, tc, eid, cn⟩
    rcases eid with _ | i <;> rcases cn with _ | c <;> rfl

theorem addElement_store_getStored (ctx : Ctx) (k : ℕ)
    (hne : ∀ p, ctx.parent = some p → p ≠ k) :
    getStored (addElement ctx k) k = getStored ctx k := by
  unfold addElement
  rcases hp : ctx.parent with _ | p
  · show getStored (registerElem _ _) _ = _
    unfold getStored
    rw [registerElem_store]
  · show getStored (registerElem (pushChild ctx p k) _) _ = _
    unfold getStored
    rw [registerElem_store]
    show getStored.go k (pushChild ctx p k).store = getStored.go k ctx.store
    have h2 := getStored_go_map_update p k (fun e => { e with children := e.children ++ [k] }) ctx.store
    rw [if_neg (hne p hp)] at h2
    exact h2

end VexFlowRN

namespace VexFlowRN

/-! ### C2: closeGroup -/

/-- C2 counterexample: `closeGroup()` on a fresh context (no group open
beyond the root) raises no error; it silently pops the root frame
itself, leaving the group stack empty and the insertion point
`undefined` — it does not fail fast. -/
theorem closeGroup_at_root_cex :
    (closeGroup (initCtx 3 500 200)).groups = [] ∧
    (closeGroup (initCtx 3 500 200)).groupAttributes = [] ∧
    (closeGroup (initCtx 3 500 200)).parent = none :=
  ⟨rfl, rfl, rfl⟩

/-- C2 (amended): `closeGroup()` never raises.  It unconditionally pops
the top frame of the group stack and of the effective-attribute stack
and reinstates the last remaining group as the insertion point; with no
open group beyond the root this pops the root frame itself and leaves
the insertion point `undefined`. -/
theorem closeGroup_spec (ctx : Ctx) :
    (closeGroup ctx).groups = ctx.groups.dropLast ∧
    (closeGroup ctx).groupAttributes = ctx.groupAttributes.dropLast ∧
    (closeGroup ctx).parent = ctx.groups.dropLast.getLast? :=
  ⟨rfl, rfl, rfl⟩

/-! ### C1: clear -/

/-- C1 counterexample: after `moveTo` and `openGroup`, `clear()` leaves
the pending path non-empty and the insertion point at the (now
detached) group, not at the root — the pending-path accumulator and the
group stack are not reset. -/
theorem clear_not_reset_cex :
    (clear (openGroup (moveTo (initCtx 3 500 200) 1 2) none none)).path ≠ [] ∧
    (clear (openGroup (moveTo (initCtx 3 500 200) 1 2) none none)).parent ≠
      some (clear (openGroup (moveTo (initCtx 3 500 200) 1 2) none none)).rootKey := by
  constructor
  · show (moveTo (initCtx 3 500 200) 1 2).path ≠ []
    simp [moveTo]
  · decide

/-- C1 (amended): `clear()` empties the root node's child list and both
registries, and touches nothing else: the pending path, the pen, the
group stack, the effective-attribute stack and the insertion point all
keep their pre-`clear` values (they are not reset to the initial
root-only state). -/
theorem clear_spec (ctx : Ctx) :
    (∀ e, getStored ctx ctx.rootKey = some e →
       getStored (clear ctx) ctx.rootKey = some { e with children := [] }) ∧
    (clear ctx).elementRegistry = [] ∧
    (clear ctx).classRegistry = [] ∧
    (clear ctx).path = ctx.path ∧
    (clear ctx).pen = ctx.pen ∧
    (clear ctx).groups = ctx.groups ∧
    (clear ctx).groupAttributes = ctx.groupAttributes ∧
    (clear ctx).parent = ctx.parent ∧
    (clear ctx).attributes = ctx.attributes := by
  refine ⟨?_, rfl, rfl, rfl, rfl, rfl, rfl, rfl, rfl⟩
  intro e he
  show getStored (updateElem ctx ctx.rootKey (fun e => { e with children := [] }))
      ctx.rootKey = some { e with children := [] }
  rw [getStored_updateElem, if_pos rfl, he]
  rfl

/-- C1 witness: the amended theorem applied to the fresh context. -/
theorem clear_spec_witness :
    getStored (initCtx 3 500 200) (initCtx 3 500 200).rootKey = some (initRootElem 500 200) ∧
    getStored (clear (initCtx 3 500 200)) (initCtx 3 500 200).rootKey =
      some { initRootElem 500 200 with children := [] } ∧
    (clear (initCtx 3 500 200)).elementRegistry = [] :=
  ⟨rfl, (clear_spec (initCtx 3 500 200)).1 (initRootElem 500 200) rfl,
   (clear_spec (initCtx 3 500 200)).2.1⟩

/-! ### C4: save / restore -/

/-- The operations that mutate only the current paint state (the
setters of §“Paint setters” plus `setFont`). -/
def isPaintSetter : Op → Bool
  | Op.setFillStyle _ => true
  | Op.setStrokeStyle _ => true
  | Op.setLineWidth _ => true
  | Op.setLineCap _ => true
  | Op.setLineDash _ => true
  | Op.setFont _ _ _ _ _ => true
  | _ => false

theorem paintSetter_stateStack (ctx : Ctx) (o : Op) (h : isPaintSetter o = true) :
    (step ctx o).stateStack = ctx.stateStack := by
  cases o
  all_goals first
    | rfl
    | simp [isPaintSetter] at h

theorem foldl_stateStack (ms : List Op) (hms : ∀ o ∈ ms, isPaintSetter o = true) (ctx : Ctx) :
    (ms.foldl step ctx).stateStack = ctx.stateStack := by
  induction ms generalizing ctx with
  | nil => rfl
  | cons o rest ih =>
    rw [List.foldl_cons, ih (fun o2 h2 => hms o2 (by simp [h2])),
        paintSetter_stateStack ctx o (hms o (by simp))]

theorem restore_of_stack_cons (c : Ctx) (s a : AttrMap) (rest : List (AttrMap × AttrMap))
    (h : c.stateStack = (s, a) :: rest) :
    restore c = { c with state := s, attributes := a, stateStack := rest } := by
  unfold restore
  rw [h]

theorem restore_of_stack_nil (c : Ctx) (h : c.stateStack = []) : restore c = c := by
  unfold restore
  rw [h]

/-- C4: any sequence of paint-state mutations performed between `save()`
and its matching `restore()` is fully undone — the paint attributes and
the transform/font state after `restore()` are byte-for-byte the maps
captured at `save()` — and `restore()` with an empty save stack is a
no-op that raises no error. -/
theorem save_restore_roundtrip (ctx : Ctx) (ms : List Op)
    (hms : ∀ o ∈ ms, isPaintSetter o = true) :
    (restore (ms.foldl step (save ctx))).attributes = ctx.attributes ∧
    (restore (ms.foldl step (save ctx))).state = ctx.state ∧
    (∀ c : Ctx, c.stateStack = [] → restore c = c) := by
  have hs : (ms.foldl step (save ctx)).stateStack =
      (ctx.state, ctx.attributes) :: ctx.stateStack := foldl_stateStack ms hms (save ctx)
  rw [restore_of_stack_cons _ _ _ _ hs]
  exact ⟨rfl, rfl, fun c hc => restore_of_stack_nil c hc⟩

/-- C4 witness: a concrete save / mutate / restore round trip from the
fresh context. -/
theorem save_restore_roundtrip_witness :
    (∀ o ∈ [Op.setFillStyle "red", Op.setLineWidth 5], isPaintSetter o = true) ∧
    ((restore ([Op.setFillStyle "red", Op.setLineWidth 5].foldl step
        (save (initCtx 3 500 200)))).attributes = (initCtx 3 500 200).attributes ∧
     (restore ([Op.setFillStyle "red", Op.setLineWidth 5].foldl step
        (save (initCtx 3 500 200)))).state = (initCtx 3 500 200).state ∧
     (∀ c : Ctx, c.stateStack = [] → restore c = c)) :=
  ⟨by decide, save_restore_roundtrip (initCtx 3 500 200) _ (by decide)⟩

end VexFlowRN

namespace VexFlowRN

/-! ### C9: fillText -/

/-- All stored keys and the insertion-point key are below the key
counter.  This holds in every state the class can reach (keys are
allocated by post-incrementing `nextElementKey`), and is re-proved as a
reachability invariant below. -/
def KeysBounded (ctx : Ctx) : Prop :=
  (∀ kv ∈ ctx.store, kv.1 < ctx.nextElementKey) ∧
  (∀ p, ctx.parent = some p → p < ctx.nextElementKey)

theorem updateElem_store_length (ctx : Ctx) (k : ℕ) (f : Elem → Elem) :
    (updateElem ctx k f).store.length = ctx.store.length := by
  simp [updateElem]

@[simp] theorem createElement_snd (ctx : Ctx) (typ : String) :
    (createElement ctx typ).2 = ctx.nextElementKey := rfl

theorem initCtx_keysBounded (places : ℕ) (w h : ℚ) : KeysBounded (initCtx places w h) := by
  constructor
  · intro kv hkv
    have h2 : kv = (1, initRootElem w h) := by simpa [initCtx] using hkv
    rw [h2]
    show (1 : ℕ) < 2
    decide
  · intro p hp
    have h2 : (1 : ℕ) = p := by
      have h3 : some (1 : ℕ) = some p := hp
      exact Option.some.inj h3
    rw [← h2]
    show (1 : ℕ) < 2
    decide

theorem addElement_store_length (ctx : Ctx) (k : ℕ) :
    (addElement ctx k).store.length = ctx.store.length := by
  unfold addElement
  rcases hp : ctx.parent with _ | p
  · have h1 := registerElem_store ctx k
    rw [h1]
  · have h1 := registerElem_store (pushChild ctx p k) k
    rw [h1]
    exact updateElem_store_length ctx p _

/-- The element appended by `fillText` (for non-empty text). -/
theorem getStored_fillText (ctx : Ctx) (s : String) (x y : ℚ)
    (hkb : KeysBounded ctx) (hs : ¬ s = "") :
    getStored (fillText ctx s x y) ctx.nextElementKey =
      some { typ := "text"
             props := applyAttrs "text" (effTop ctx)
               (setA (setA [("key", AttrVal.num (ctx.nextElementKey : ℚ))]
                  "x" (AttrVal.num (ctx.round x))) "y" (AttrVal.num (ctx.round y)))
               (setA ctx.attributes "stroke" (AttrVal.str "none"))
             children := []
             textContent := some s } := by
  unfold fillText
  rw [if_neg hs]
  dsimp only
  simp only [createElement_snd]
  rw [addElement_store_getStored]
  · unfold Ctx.applyAttributes
    rw [getStored_updateElem, if_pos rfl]
    rw [getStored_updateElem, if_pos rfl]
    rw [getStored_createElement_self _ _ hkb.1]
    rfl
  · intro p hp
    exact Nat.ne_of_lt (hkb.2 p hp)

/-- C9: `fillText("", x, y)` appends no node and raises no error, while
`fillText(s, x, y)` for non-empty `s` appends exactly one element — a
text node whose literal content is `s`. -/
theorem fillText_spec (ctx : Ctx) (s : String) (x y : ℚ) (hkb : KeysBounded ctx) :
    (fillText ctx "" x y = ctx) ∧
    (s ≠ "" →
      (fillText ctx s x y).store.length = ctx.store.length + 1 ∧
      ∃ e, getStored (fillText ctx s x y) ctx.nextElementKey = some e ∧
           e.typ = "text" ∧ e.textContent = some s) := by
  constructor
  · unfold fillText
    rw [if_pos rfl]
  · intro hs
    constructor
    · unfold fillText
      rw [if_neg hs]
      dsimp only
      simp only [createElement_snd]
      rw [addElement_store_length]
      unfold Ctx.applyAttributes
      rw [updateElem_store_length, updateElem_store_length]
      simp [createElement]
    · exact ⟨_, getStored_fillText ctx s x y hkb hs, rfl, rfl⟩

/-- C9 witness: concrete instances on the fresh context. -/
theorem fillText_spec_witness :
    (KeysBounded (initCtx 3 500 200) ∧ "A" ≠ "") ∧
    (fillText (initCtx 3 500 200) "" 50 100 = initCtx 3 500 200) ∧
    ((fillText (initCtx 3 500 200) "A" 50 100).store.length =
        (initCtx 3 500 200).store.length + 1 ∧
      ∃ e, getStored (fillText (initCtx 3 500 200) "A" 50 100)
             (initCtx 3 500 200).nextElementKey = some e ∧
           e.typ = "text" ∧ e.textContent = some "A") := by
  have hkb : KeysBounded (initCtx 3 500 200) := initCtx_keysBounded 3 500 200
  have h := fillText_spec (initCtx 3 500 200) "A" 50 100 hkb
  exact ⟨⟨hkb, by decide⟩, h.1, h.2 (by decide)⟩

end VexFlowRN

namespace VexFlowRN

/-! ### C6: fill / stroke -/

theorem getStored_fill (ctx : Ctx) (a : Option AttrMap) (hkb : KeysBounded ctx) :
    getStored (fill ctx a) ctx.nextElementKey =
      some { typ := "path"
             props := applyAttrs "path" (effTop ctx)
               [("key", AttrVal.num (ctx.nextElementKey : ℚ))] (fillAttrsUsed ctx a)
             children := [] } := by
  unfold fill
  dsimp only
  simp only [createElement_snd]
  rw [addElement_store_getStored]
  · unfold Ctx.applyAttributes
    rw [getStored_updateElem, if_pos rfl]
    rw [getStored_createElement_self _ _ hkb.1]
    rfl
  · intro p hp
    exact Nat.ne_of_lt (hkb.2 p hp)

theorem getStored_stroke (ctx : Ctx) (hkb : KeysBounded ctx) :
    getStored (stroke ctx) ctx.nextElementKey =
      some { typ := "path"
             props := applyAttrs "path" (effTop ctx)
               [("key", AttrVal.num (ctx.nextElementKey : ℚ))] (strokeAttrsUsed ctx)
             children := [] } := by
  unfold stroke
  dsimp only
  simp only [createElement_snd]
  rw [addElement_store_getStored]
  · unfold Ctx.applyAttributes
    rw [getStored_updateElem, if_pos rfl]
    rw [getStored_createElement_self _ _ hkb.1]
    rfl
  · intro p hp
    exact Nat.ne_of_lt (hkb.2 p hp)

theorem fill_store_length (ctx : Ctx) (a : Option AttrMap) :
    (fill ctx a).store.length = ctx.store.length + 1 := by
  unfold fill
  dsimp only
  simp only [createElement_snd]
  rw [addElement_store_length]
  unfold Ctx.applyAttributes
  rw [updateElem_store_length]
  simp [createElement]

theorem stroke_store_length (ctx : Ctx) :
    (stroke ctx).store.length = ctx.store.length + 1 := by
  unfold stroke
  dsimp only
  simp only [createElement_snd]
  rw [addElement_store_length]
  unfold Ctx.applyAttributes
  rw [updateElem_store_length]
  simp [createElement]

/-- C6: `fill()` with no argument materializes the pending path using
the current paint attributes with `stroke` forced to `"none"` (all
other attribute bindings unchanged), `stroke()` uses the current paint
attributes with `fill` forced to `"none"`, and an explicit attribute
argument to `fill` fully replaces the paint-derived default set for
that one node; in each case exactly one path element is appended,
carrying the corresponding attribute set. -/
theorem fill_stroke_spec (ctx : Ctx) (a : AttrMap) (k : String) (hkb : KeysBounded ctx) :
    (lookupA (fillAttrsUsed ctx none) "stroke" = some (AttrVal.str "none") ∧
     lookupA (fillAttrsUsed ctx none) "d" = some (AttrVal.pathD ctx.path) ∧
     (k ≠ "stroke" → k ≠ "d" → lookupA (fillAttrsUsed ctx none) k = lookupA ctx.attributes k)) ∧
    (lookupA (strokeAttrsUsed ctx) "fill" = some (AttrVal.str "none") ∧
     lookupA (strokeAttrsUsed ctx) "d" = some (AttrVal.pathD ctx.path) ∧
     (k ≠ "fill" → k ≠ "d" → lookupA (strokeAttrsUsed ctx) k = lookupA ctx.attributes k)) ∧
    (k ≠ "d" → lookupA (fillAttrsUsed ctx (some a)) k = lookupA a k) ∧
    ((fill ctx none).store.length = ctx.store.length + 1 ∧
     getStored (fill ctx none) ctx.nextElementKey =
       some { typ := "path"
              props := applyAttrs "path" (effTop ctx)
                [("key", AttrVal.num (ctx.nextElementKey : ℚ))] (fillAttrsUsed ctx none)
              children := [] }) ∧
    ((fill ctx (some a)).store.length = ctx.store.length + 1 ∧
     getStored (fill ctx (some a)) ctx.nextElementKey =
       some { typ := "path"
              props := applyAttrs "path" (effTop ctx)
                [("key", AttrVal.num (ctx.nextElementKey : ℚ))] (fillAttrsUsed ctx (some a))
              children := [] }) ∧
    ((stroke ctx).store.length = ctx.store.length + 1 ∧
     getStored (stroke ctx) ctx.nextElementKey =
       some { typ := "path"
              props := applyAttrs "path" (effTop ctx)
                [("key", AttrVal.num (ctx.nextElementKey : ℚ))] (strokeAttrsUsed ctx)
              children := [] }) := by
  refine ⟨⟨?_, ?_, ?_⟩, ⟨?_, ?_, ?_⟩, ?_, ?_, ?_, ?_⟩
  · show lookupA (setA (setA ctx.attributes "stroke" (AttrVal.str "none")) "d"
      (AttrVal.pathD ctx.path)) "stroke" = some (AttrVal.str "none")
    rw [lookupA_setA_ne _ _ _ _ (by decide), lookupA_setA_self]
  · exact lookupA_setA_self _ _ _
  · intro hk1 hk2
    show lookupA (setA (setA ctx.attributes "stroke" (AttrVal.str "none")) "d"
      (AttrVal.pathD ctx.path)) k = lookupA ctx.attributes k
    rw [lookupA_setA_ne _ _ _ _ hk2, lookupA_setA_ne _ _ _ _ hk1]
  · show lookupA (setA (setA ctx.attributes "fill" (AttrVal.str "none")) "d"
      (AttrVal.pathD ctx.path)) "fill" = some (AttrVal.str "none")
    rw [lookupA_setA_ne _ _ _ _ (by decide), lookupA_setA_self]
  · exact lookupA_setA_self _ _ _
  · intro hk1 hk2
    show lookupA (setA (setA ctx.attributes "fill" (AttrVal.str "none")) "d"
      (AttrVal.pathD ctx.path)) k = lookupA ctx.attributes k
    rw [lookupA_setA_ne _ _ _ _ hk2, lookupA_setA_ne _ _ _ _ hk1]
  · intro hk
    show lookupA (setA a "d" (AttrVal.pathD ctx.path)) k = lookupA a k
    rw [lookupA_setA_ne _ _ _ _ hk]
  · exact ⟨fill_store_length ctx none, getStored_fill ctx none hkb⟩
  · exact ⟨fill_store_length ctx (some a), getStored_fill ctx (some a) hkb⟩
  · exact ⟨stroke_store_length ctx, getStored_stroke ctx hkb⟩

/-- C6 witness: the theorem applied to the fresh context, an explicit
attribute override and the key `"fill"`. -/
theorem fill_stroke_spec_witness :
    (KeysBounded (initCtx 3 500 200) ∧ ("fill" : String) ≠ "d") ∧
    (lookupA (fillAttrsUsed (initCtx 3 500 200) none) "stroke" = some (AttrVal.str "none") ∧
     lookupA (fillAttrsUsed (initCtx 3 500 200) none) "d" =
       some (AttrVal.pathD (initCtx 3 500 200).path) ∧
     (("fill" : String) ≠ "stroke" → ("fill" : String) ≠ "d" →
       lookupA (fillAttrsUsed (initCtx 3 500 200) none) "fill" =
         lookupA (initCtx 3 500 200).attributes "fill")) ∧
    (("fill" : String) ≠ "d" →
      lookupA (fillAttrsUsed (initCtx 3 500 200) (some [("fill", AttrVal.str "red")])) "fill" =
        lookupA [("fill", AttrVal.str "red")] "fill") :=
  ⟨⟨initCtx_keysBounded 3 500 200, by decide⟩,
   (fill_stroke_spec (initCtx 3 500 200) [("fill", AttrVal.str "red")] "fill"
      (initCtx_keysBounded 3 500 200)).1,
   (fill_stroke_spec (initCtx 3 500 200) [("fill", AttrVal.str "red")] "fill"
      (initCtx_keysBounded 3 500 200)).2.2.1⟩

end VexFlowRN

namespace VexFlowRN

/-! ### C8: rect -/

theorem roundQ_nonneg (places : ℕ) (q : ℚ) (h : 0 ≤ q) : 0 ≤ roundQ places q := by
  unfold roundQ
  apply div_nonneg
  · have h1 : (0 : ℚ) ≤ q * 10 ^ places + 1 / 2 := by
      have h2 : (0 : ℚ) ≤ q * 10 ^ places := mul_nonneg h (by positivity)
      linarith
    exact_mod_cast Int.floor_nonneg.mpr h1
  · positivity

/-- `applyAttributes` leaves untouched any prop name that no attribute
binding maps to. -/
theorem lookupA_applyAttrs_not_written (typ : String) (ga : Option AttrMap)
    (props attrs : AttrMap) (k : String)
    (h : ∀ kv ∈ attrs, propMap kv.1 ≠ k) :
    lookupA (applyAttrs typ ga props attrs) k = lookupA props k := by
  unfold applyAttrs
  induction attrs generalizing props with
  | nil => rfl
  | cons kv rest ih =>
    rw [List.foldl_cons]
    have hrest : ∀ kv2 ∈ rest, propMap kv2.1 ≠ k := fun kv2 h2 => h kv2 (by simp [h2])
    by_cases h1 : ignoredFor typ kv.1
    · rw [if_pos h1]
      exact ih props hrest
    · rw [if_neg h1]
      by_cases h2 : (ga.bind (fun m => lookupA m kv.1)) = some kv.2
      · rw [if_pos h2]
        exact ih props hrest
      · rw [if_neg h2]
        rw [ih _ hrest]
        exact lookupA_setA_ne _ _ _ _ (fun hh => h kv (by simp) hh.symm)

/-- The element appended by `rect`: direct geometry props (with the
negative-height normalization) followed by attribute application. -/
theorem getStored_rect (ctx : Ctx) (x y w h : ℚ) (a : Option AttrMap)
    (hkb : KeysBounded ctx) :
    getStored (rect ctx x y w h a) ctx.nextElementKey =
      some { typ := "rect"
             props := applyAttrs "rect" (effTop ctx)
               (setA (setA (setA (setA [("key", AttrVal.num (ctx.nextElementKey : ℚ))]
                  "x" (AttrVal.num (ctx.round x)))
                  "y" (AttrVal.num (ctx.round (if h < 0 then y + h else y))))
                  "width" (AttrVal.num (ctx.round w)))
                  "height" (AttrVal.num (ctx.round (if h < 0 then -h else h))))
               (mergeA (rectDefaultAttrs ctx) (a.getD []))
             children := [] } := by
  unfold rect
  dsimp only
  simp only [createElement_snd]
  rw [addElement_store_getStored]
  · unfold Ctx.applyAttributes
    rw [getStored_updateElem, if_pos rfl]
    rw [getStored_updateElem, if_pos rfl]
    rw [getStored_createElement_self _ _ hkb.1]
    rfl
  · intro p hp
    exact Nat.ne_of_lt (hkb.2 p hp)

theorem rectDefaultAttrs_not_height (ctx : Ctx) :
    ∀ kv ∈ mergeA (rectDefaultAttrs ctx) ((none : Option AttrMap).getD []),
      propMap kv.1 ≠ "height" := by
  intro kv hkv
  have h2 : kv ∈ rectDefaultAttrs ctx := hkv
  unfold rectDefaultAttrs at h2
  rcases h3 : lookupA ctx.attributes "stroke-width" with _ | v <;> rw [h3] at h2
  · simp only [List.append_nil, List.nil_append, List.mem_append, List.mem_singleton] at h2
    rcases h2 with h4 | h4 <;> rw [h4] <;> decide
  · simp only [List.mem_append, List.mem_singleton] at h2
    rcases h2 with (h4 | h4) | h4 <;> rw [h4]
    · decide
    · show propMap "stroke-width" ≠ "height"
      decide
    · decide

/-- C8: `rect(x, y, w, h)` with `h < 0` is the same call as
`rect(x, y+h, w, |h|)` — the entire resulting context is equal — and no
4-argument `rect` call ever stores a node with a negative `height`
prop. -/
theorem rect_spec (ctx : Ctx) (x y w h : ℚ) (hkb : KeysBounded ctx) :
    (h < 0 → rect ctx x y w h none = rect ctx x (y + h) w |h| none) ∧
    (∀ e q, getStored (rect ctx x y w h none) ctx.nextElementKey = some e →
       lookupA e.props "height" = some (AttrVal.num q) → 0 ≤ q) := by
  constructor
  · intro hneg
    have h2 : ¬ (-h < 0) := by linarith
    rw [abs_of_neg hneg]
    unfold rect
    dsimp only
    rw [if_pos hneg, if_pos hneg, if_neg h2, if_neg h2]
  · intro e q he hq
    rw [getStored_rect ctx x y w h none hkb] at he
    have he2 := Option.some.inj he
    rw [← he2] at hq
    dsimp only at hq
    rw [lookupA_applyAttrs_not_written _ _ _ _ _ (rectDefaultAttrs_not_height ctx)] at hq
    rw [lookupA_setA_self] at hq
    have hq2 : ctx.round (if h < 0 then -h else h) = q := by
      have := Option.some.inj hq
      exact congrArg (fun z => match z with | AttrVal.num r => r | _ => 0) this
    rw [← hq2]
    apply roundQ_nonneg
    by_cases hh : h < 0
    · rw [if_pos hh]; linarith
    · rw [if_neg hh]; exact le_of_not_lt hh

/-- C8 witness: the repository test case `fillRect(10, 100, 50, -30)`
geometry on the bare `rect`. -/
theorem rect_spec_witness :
    (KeysBounded (initCtx 3 500 200) ∧ (-30 : ℚ) < 0) ∧
    (rect (initCtx 3 500 200) 10 100 50 (-30) none =
       rect (initCtx 3 500 200) 10 (100 + -30) 50 |(-30 : ℚ)| none) ∧
    (∀ e q, getStored (rect (initCtx 3 500 200) 10 100 50 (-30) none)
         (initCtx 3 500 200).nextElementKey = some e →
       lookupA e.props "height" = some (AttrVal.num q) → 0 ≤ q) :=
  ⟨⟨initCtx_keysBounded 3 500 200, by norm_num⟩,
   (rect_spec (initCtx 3 500 200) 10 100 50 (-30) (initCtx_keysBounded 3 500 200)).1 (by norm_num),
   (rect_spec (initCtx 3 500 200) 10 100 50 (-30) (initCtx_keysBounded 3 500 200)).2⟩

end VexFlowRN

namespace VexFlowRN

/-! ### C5: inherited-attribute elision on leaf nodes -/

/-- The attribute names that can ever occur in `this.attributes` (and
hence in any effective-attribute frame): the constructor's initial keys
plus the keys written by the paint setters and `setFont`. -/
def paintKeys : List String :=
  ["stroke-width", "stroke-dasharray", "stroke-linecap", "fill", "stroke",
   "font-family", "font-size", "font-weight", "font-style"]

/-- All keys of an attribute object lie in `paintKeys`. -/
def attrKeysOK (m : AttrMap) : Prop := ∀ kv ∈ m, kv.1 ∈ paintKeys

/-- The reachability invariant of the context: key bounds for the store,
the insertion point and the group stack, and the paint-key discipline
for the current attributes, every effective-attribute frame and every
saved frame. -/
def Inv (ctx : Ctx) : Prop :=
  KeysBounded ctx ∧
  (∀ g ∈ ctx.groups, g < ctx.nextElementKey) ∧
  attrKeysOK ctx.attributes ∧
  (∀ m ∈ ctx.groupAttributes, attrKeysOK m) ∧
  (∀ fr ∈ ctx.stateStack, attrKeysOK fr.2)

theorem attrKeysOK_setA (m : AttrMap) (k : String) (v : AttrVal)
    (hm : attrKeysOK m) (hk : k ∈ paintKeys) : attrKeysOK (setA m k v) := by
  intro kv hkv
  rcases setA_keys m k v kv hkv with h | ⟨kv2, h2, h3⟩
  · rw [h]; exact hk
  · rw [h3]; exact hm kv2 h2

theorem attrKeysOK_mergeA (a b : AttrMap) (ha : attrKeysOK a) (hb : attrKeysOK b) :
    attrKeysOK (mergeA a b) := by
  unfold mergeA
  induction b generalizing a with
  | nil => exact ha
  | cons kv rest ih =>
    rw [List.foldl_cons]
    exact ih (setA a kv.1 kv.2)
      (attrKeysOK_setA a kv.1 kv.2 ha (hb kv (by simp)))
      (fun kv2 h2 => hb kv2 (by simp [h2]))

theorem attrKeysOK_initAttributes : attrKeysOK initAttributes := by
  unfold attrKeysOK
  decide

/-- `Inv` only looks at these seven fields. -/
theorem Inv_congr (c1 c2 : Ctx)
    (hs : c2.store = c1.store) (hp : c2.parent = c1.parent) (hg : c2.groups = c1.groups)
    (hga : c2.groupAttributes = c1.groupAttributes) (ha : c2.attributes = c1.attributes)
    (hss : c2.stateStack = c1.stateStack) (hn : c2.nextElementKey = c1.nextElementKey)
    (h : Inv c1) : Inv c2 := by
  unfold Inv KeysBounded
  rw [hs, hp, hg, hga, ha, hss, hn]
  exact h

theorem registerElem_fields (ctx : Ctx) (k : ℕ) :
    (registerElem ctx k).store = ctx.store ∧
    (registerElem ctx k).parent = ctx.parent ∧
    (registerElem ctx k).groups = ctx.groups ∧
    (registerElem ctx k).groupAttributes = ctx.groupAttributes ∧
    (registerElem ctx k).attributes = ctx.attributes ∧
    (registerElem ctx k).stateStack = ctx.stateStack ∧
    (registerElem ctx k).nextElementKey = ctx.nextElementKey ∧
    (registerElem ctx k).path = ctx.path ∧
    (registerElem ctx k).places = ctx.places := by
  unfold registerElem
  rcases getStored ctx k with _ | e
  · exact ⟨rfl, rfl, rfl, rfl, rfl, rfl, rfl, rfl, rfl⟩
  · rcases e with ⟨typ, props, children, tc, eid, cn⟩
    rcases eid with _ | i <;> rcases cn with _ | c <;>
      exact ⟨rfl, rfl, rfl, rfl, rfl, rfl, rfl, rfl, rfl⟩

theorem Inv_registerElem (ctx : Ctx) (k : ℕ) (h : Inv ctx) : Inv (registerElem ctx k) := by
  have hf := registerElem_fields ctx k
  exact Inv_congr ctx _ hf.1 hf.2.1 hf.2.2.1 hf.2.2.2.1 hf.2.2.2.2.1 hf.2.2.2.2.2.1
    hf.2.2.2.2.2.2.1 h

theorem Inv_updateElem (ctx : Ctx) (j : ℕ) (f : Elem → Elem) (h : Inv ctx) :
    Inv (updateElem ctx j f) := by
  obtain ⟨⟨hs, hp⟩, hg, ha, hga, hss⟩ := h
  refine ⟨⟨?_, hp⟩, hg, ha, hga, hss⟩
  intro kv hkv
  unfold updateElem at hkv
  simp only [List.mem_map] at hkv
  obtain ⟨kv2, h2, h3⟩ := hkv
  by_cases h4 : kv2.1 = j
  · rw [← h3]
    simp only [if_pos h4]
    exact h4 ▸ hs kv2 h2
  · rw [← h3]
    simp only [if_neg h4]
    exact hs kv2 h2

theorem Inv_pushChild (ctx : Ctx) (p k : ℕ) (h : Inv ctx) : Inv (pushChild ctx p k) :=
  Inv_updateElem ctx p _ h

theorem Inv_addElement (ctx : Ctx) (k : ℕ) (h : Inv ctx) : Inv (addElement ctx k) := by
  unfold addElement
  rcases hp : ctx.parent with _ | p
  · exact Inv_registerElem ctx k h
  · exact Inv_registerElem _ k (Inv_pushChild ctx p k h)

theorem Inv_createElement (ctx : Ctx) (typ : String) (h : Inv ctx) :
    Inv (createElement ctx typ).1 := by
  obtain ⟨⟨hs, hp⟩, hg, ha, hga, hss⟩ := h
  refine ⟨⟨?_, ?_⟩, ?_, ha, hga, hss⟩
  · intro kv hkv
    unfold createElement at hkv
    simp only [List.mem_append, List.mem_singleton] at hkv
    rcases hkv with h2 | h2
    · exact Nat.lt_succ_of_lt (hs kv h2)
    · rw [h2]
      exact Nat.lt_succ_self _
  · intro p hp2
    exact Nat.lt_succ_of_lt (hp p hp2)
  · intro g hg2
    exact Nat.lt_succ_of_lt (hg g hg2)

theorem Inv_applyAttributes (ctx : Ctx) (k : ℕ) (attrs : AttrMap) (h : Inv ctx) :
    Inv (ctx.applyAttributes k attrs) :=
  Inv_updateElem ctx k _ h

end VexFlowRN

namespace VexFlowRN

theorem mem_of_getLast?_aux {α : Type} {l : List α} {a : α}
    (h : l.getLast? = some a) : a ∈ l := by
  obtain ⟨hne, heq⟩ := List.mem_getLast?_eq_getLast (show a ∈ l.getLast? from h)
  rw [heq]
  exact List.getLast_mem hne

theorem Inv_attrsOnly (ctx : Ctx) (m : AttrMap) (hm : attrKeysOK m) (h : Inv ctx) :
    Inv { ctx with attributes := m } := by
  obtain ⟨hkb, hg, _, hga, hss⟩ := h
  exact ⟨hkb, hg, hm, hga, hss⟩

theorem Inv_rect (ctx : Ctx) (x y w h : ℚ) (a : Option AttrMap) (hi : Inv ctx) :
    Inv (rect ctx x y w h a) := by
  unfold rect
  dsimp only
  exact Inv_addElement _ _ (Inv_applyAttributes _ _ _ (Inv_updateElem _ _ _
    (Inv_createElement _ _ hi)))

theorem Inv_fill (ctx : Ctx) (a : Option AttrMap) (hi : Inv ctx) : Inv (fill ctx a) := by
  unfold fill
  dsimp only
  exact Inv_addElement _ _ (Inv_applyAttributes _ _ _ (Inv_createElement _ _ hi))

theorem Inv_stroke (ctx : Ctx) (hi : Inv ctx) : Inv (stroke ctx) := by
  unfold stroke
  dsimp only
  exact Inv_addElement _ _ (Inv_applyAttributes _ _ _ (Inv_createElement _ _ hi))

theorem Inv_fillText (ctx : Ctx) (s : String) (x y : ℚ) (hi : Inv ctx) :
    Inv (fillText ctx s x y) := by
  unfold fillText
  by_cases hs : s = ""
  · rw [if_pos hs]
    exact hi
  · rw [if_neg hs]
    dsimp only
    exact Inv_addElement _ _ (Inv_applyAttributes _ _ _ (Inv_updateElem _ _ _
      (Inv_createElement _ _ hi)))

theorem storeKeysLT_map_fst (s : List (ℕ × Elem)) (n : ℕ) (g : (ℕ × Elem) → (ℕ × Elem))
    (hg : ∀ kv, (g kv).1 = kv.1) (h : ∀ kv ∈ s, kv.1 < n) : ∀ kv ∈ s.map g, kv.1 < n := by
  intro kv hkv
  rcases List.mem_map.mp hkv with ⟨kv2, h2, h3⟩
  rw [← h3, hg kv2]
  exact h kv2 h2

theorem storeKeysLT_append_new (s : List (ℕ × Elem)) (n k : ℕ) (e : Elem)
    (h : ∀ kv ∈ s, kv.1 < n) (hk : k < n) : ∀ kv ∈ s ++ [(k, e)], kv.1 < n := by
  intro kv hkv
  rcases List.mem_append.mp hkv with h2 | h2
  · exact h kv h2
  · rw [List.mem_singleton.mp h2]
    exact hk

theorem Inv_openGroup (ctx : Ctx) (cls id : Option String) (hi : Inv ctx) :
    Inv (openGroup ctx cls id) := by
  obtain ⟨⟨hs, hp⟩, hg, ha, hga, hss⟩ := hi
  have hmerge : attrKeysOK (mergeA ((ctx.groupAttributes.getLast?).getD []) ctx.attributes) := by
    refine attrKeysOK_mergeA _ _ ?_ ha
    rcases hlast : ctx.groupAttributes.getLast? with _ | m2
    · intro kv hkv
      simp at hkv
    · exact hga m2 (mem_of_getLast?_aux hlast)
  have hsnew : ∀ kv ∈ ctx.store ++
      [(ctx.nextElementKey,
        ({ typ := "g", props := [("key", AttrVal.num (ctx.nextElementKey : ℚ))],
           children := [] } : Elem))], kv.1 < ctx.nextElementKey + 1 :=
    storeKeysLT_append_new _ _ _ _ (fun kv h2 => Nat.lt_succ_of_lt (hs kv h2))
      (Nat.lt_succ_self _)
  have hgnew : ∀ g ∈ ctx.groups ++ [ctx.nextElementKey], g < ctx.nextElementKey + 1 := by
    intro g hgm
    rcases List.mem_append.mp hgm with h2 | h2
    · exact Nat.lt_succ_of_lt (hg g h2)
    · rw [List.mem_singleton.mp h2]
      exact Nat.lt_succ_self _
  have hganew : ∀ m ∈ ctx.groupAttributes ++
      [mergeA ((ctx.groupAttributes.getLast?).getD []) ctx.attributes], attrKeysOK m := by
    intro m hm
    rcases List.mem_append.mp hm with h2 | h2
    · exact hga m h2
    · rw [List.mem_singleton.mp h2]
      exact hmerge
  unfold openGroup
  dsimp only
  rcases hcase : ctx.parent with _ | p
  · apply Inv_registerElem
    refine ⟨⟨?_, ?_⟩, hgnew, ha, hganew, hss⟩
    · exact storeKeysLT_map_fst _ _ _ (fun kv => by split <;> rfl)
        (storeKeysLT_map_fst _ _ _ (fun kv => by split <;> rfl) hsnew)
    · intro q hq
      rw [(Option.some.inj hq).symm]
      exact Nat.lt_succ_self _
  · apply Inv_registerElem
    refine ⟨⟨?_, ?_⟩, hgnew, ha, hganew, hss⟩
    · exact storeKeysLT_map_fst _ _ _ (fun kv => by split <;> rfl)
        (storeKeysLT_map_fst _ _ _ (fun kv => by split <;> rfl)
          (storeKeysLT_map_fst _ _ _ (fun kv => by split <;> rfl) hsnew))
    · intro q hq
      rw [(Option.some.inj hq).symm]
      exact Nat.lt_succ_self _

end VexFlowRN

namespace VexFlowRN

theorem Inv_closeGroup (ctx : Ctx) (hi : Inv ctx) : Inv (closeGroup ctx) := by
  obtain ⟨⟨hs, hp⟩, hg, ha, hga, hss⟩ := hi
  refine ⟨⟨hs, ?_⟩, ?_, ha, ?_, hss⟩
  · intro p hp2
    have h2 : p ∈ ctx.groups.dropLast := mem_of_getLast?_aux hp2
    exact hg p (List.mem_of_mem_dropLast h2)
  · intro g hgm
    exact hg g (List.mem_of_mem_dropLast hgm)
  · intro m hm
    exact hga m (List.mem_of_mem_dropLast hm)

theorem Inv_save (ctx : Ctx) (hi : Inv ctx) : Inv (save ctx) := by
  obtain ⟨hkb, hg, ha, hga, hss⟩ := hi
  refine ⟨hkb, hg, ha, hga, ?_⟩
  intro fr hfr
  rcases List.mem_cons.mp hfr with h2 | h2
  · rw [h2]
    exact ha
  · exact hss fr h2

theorem Inv_restore (ctx : Ctx) (hi : Inv ctx) : Inv (restore ctx) := by
  obtain ⟨hkb, hg, ha, hga, hss⟩ := hi
  unfold restore
  rcases hst : ctx.stateStack with _ | ⟨⟨s, a⟩, rest⟩
  · exact ⟨hkb, hg, ha, hga, fun fr hfr => hss fr (hst ▸ hfr)⟩
  · refine ⟨hkb, hg, ?_, hga, ?_⟩
    · exact hss (s, a) (by rw [hst]; simp)
    · intro fr hfr
      exact hss fr (by rw [hst]; simp [hfr])

theorem Inv_scale (ctx : Ctx) (x y : ℚ) (hi : Inv ctx) : Inv (scale ctx x y) := by
  unfold scale setViewBox
  dsimp only
  apply Inv_updateElem
  obtain ⟨hkb, hg, ha, hga, hss⟩ := hi
  exact ⟨hkb, hg, ha, hga, hss⟩

theorem Inv_resize (ctx : Ctx) (w h : ℚ) (hi : Inv ctx) : Inv (resize ctx w h) := by
  unfold resize
  dsimp only
  apply Inv_scale
  apply Inv_updateElem
  obtain ⟨hkb, hg, ha, hga, hss⟩ := hi
  exact ⟨hkb, hg, ha, hga, hss⟩

theorem Inv_clear (ctx : Ctx) (hi : Inv ctx) : Inv (clear ctx) := by
  unfold clear
  dsimp only
  have h2 := Inv_updateElem ctx ctx.rootKey (fun e => { e with children := [] }) hi
  obtain ⟨hkb, hg, ha, hga, hss⟩ := h2
  exact ⟨hkb, hg, ha, hga, hss⟩

theorem Inv_openRotation (ctx : Ctx) (deg x y : ℚ) (hi : Inv ctx) :
    Inv (openRotation ctx deg x y) := by
  unfold openRotation
  dsimp only
  exact Inv_updateElem _ _ _ (Inv_openGroup ctx none none hi)

/-- Every drawing command preserves the reachability invariant. -/
theorem Inv_step (ctx : Ctx) (o : Op) (hi : Inv ctx) : Inv (step ctx o) := by
  obtain ⟨hkb, hg, ha, hga, hss⟩ := hi
  cases o with
  | setFillStyle s =>
    exact ⟨hkb, hg, attrKeysOK_setA _ _ _ ha (by decide), hga, hss⟩
  | setBackgroundFillStyle s => exact ⟨hkb, hg, ha, hga, hss⟩
  | setStrokeStyle s =>
    exact ⟨hkb, hg, attrKeysOK_setA _ _ _ ha (by decide), hga, hss⟩
  | setLineWidth w =>
    exact ⟨hkb, hg, attrKeysOK_setA _ _ _ ha (by decide), hga, hss⟩
  | setLineCap s =>
    exact ⟨hkb, hg, attrKeysOK_setA _ _ _ ha (by decide), hga, hss⟩
  | setLineDash l =>
    exact ⟨hkb, hg, attrKeysOK_setA _ _ _ ha (by decide), hga, hss⟩
  | setFont f sz wt st css =>
    refine ⟨hkb, hg, ?_, hga, hss⟩
    refine attrKeysOK_mergeA _ _ ha ?_
    intro kv hkv
    rcases List.mem_cons.mp hkv with h2 | hkv2
    · rw [h2]
      show "font-family" ∈ paintKeys
      decide
    rcases List.mem_cons.mp hkv2 with h2 | hkv3
    · rw [h2]
      show "font-size" ∈ paintKeys
      decide
    rcases List.mem_cons.mp hkv3 with h2 | hkv4
    · rw [h2]
      show "font-weight" ∈ paintKeys
      decide
    rcases List.mem_cons.mp hkv4 with h2 | hkv5
    · rw [h2]
      show "font-style" ∈ paintKeys
      decide
    · simp at hkv5
  | scale x y => exact Inv_scale ctx x y ⟨hkb, hg, ha, hga, hss⟩
  | resize w h => exact Inv_resize ctx w h ⟨hkb, hg, ha, hga, hss⟩
  | rect x y w h a => exact Inv_rect ctx x y w h a ⟨hkb, hg, ha, hga, hss⟩
  | fillRect x y w h => exact Inv_rect ctx x y w h _ ⟨hkb, hg, ha, hga, hss⟩
  | pointerRect x y w h => exact Inv_rect ctx x y w h _ ⟨hkb, hg, ha, hga, hss⟩
  | clearRect x y w h => exact Inv_rect ctx x y w h _ ⟨hkb, hg, ha, hga, hss⟩
  | beginPath => exact ⟨hkb, hg, ha, hga, hss⟩
  | moveTo x y => exact ⟨hkb, hg, ha, hga, hss⟩
  | lineTo x y => exact ⟨hkb, hg, ha, hga, hss⟩
  | bezierCurveTo x1 y1 x2 y2 x y => exact ⟨hkb, hg, ha, hga, hss⟩
  | quadraticCurveTo x1 y1 x y => exact ⟨hkb, hg, ha, hga, hss⟩
  | closePath => exact ⟨hkb, hg, ha, hga, hss⟩
  | fill a => exact Inv_fill ctx a ⟨hkb, hg, ha, hga, hss⟩
  | stroke => exact Inv_stroke ctx ⟨hkb, hg, ha, hga, hss⟩
  | fillText s x y => exact Inv_fillText ctx s x y ⟨hkb, hg, ha, hga, hss⟩
  | save => exact Inv_save ctx ⟨hkb, hg, ha, hga, hss⟩
  | restore => exact Inv_restore ctx ⟨hkb, hg, ha, hga, hss⟩
  | openGroup c i => exact Inv_openGroup ctx c i ⟨hkb, hg, ha, hga, hss⟩
  | closeGroup => exact Inv_closeGroup ctx ⟨hkb, hg, ha, hga, hss⟩
  | openRotation d x y => exact Inv_openRotation ctx d x y ⟨hkb, hg, ha, hga, hss⟩
  | closeRotation => exact Inv_closeGroup ctx ⟨hkb, hg, ha, hga, hss⟩
  | clear => exact Inv_clear ctx ⟨hkb, hg, ha, hga, hss⟩

theorem Inv_initCtx (places : ℕ) (w h : ℚ) : Inv (initCtx places w h) := by
  refine ⟨initCtx_keysBounded places w h, ?_, ?_, ?_, ?_⟩
  · intro g hgm
    have h2 : g = 1 := by simpa [initCtx] using hgm
    rw [h2]
    show (1 : ℕ) < 2
    decide
  · exact attrKeysOK_initAttributes
  · intro m hm
    have h2 : m = initAttributes := by simpa [initCtx] using hm
    rw [h2]
    exact attrKeysOK_initAttributes
  · intro fr hfr
    simp [initCtx] at hfr

/-- Every reachable context satisfies the invariant. -/
theorem Inv_run (places : ℕ) (w h : ℚ) (ops : List Op) : Inv (run places w h ops) := by
  unfold run
  induction ops using List.list_reverse_induction with
  | base => exact Inv_initCtx places w h
  | ind rest o ih =>
    rw [List.foldl_append]
    exact Inv_step _ o ih

end VexFlowRN

namespace VexFlowRN

theorem lookupA_mem (m : AttrMap) (k : String) (v : AttrVal) (h : lookupA m k = some v) :
    (k, v) ∈ m := by
  induction m with
  | nil => simp [lookupA] at h
  | cons kv rest ih =>
    by_cases h2 : kv.1 = k
    · rw [lookupA, if_pos h2] at h
      have h3 : kv = (k, v) := by
        rw [Prod.ext_iff]
        exact ⟨h2, Option.some.inj h⟩
      rw [← h3]
      exact List.mem_cons_self kv rest
    · rw [lookupA, if_neg h2] at h
      exact List.mem_cons_of_mem _ (ih h)

/-- The only attribute name whose translated prop name is a paint key is
that key itself, and this can only happen for `fill` and `stroke` (all
other paint keys are hyphenated and are translated away). -/
theorem propMap_paint (k k2 : String) (hk : k ∈ paintKeys) (h : propMap k2 = k) :
    k2 = k ∧ (k = "fill" ∨ k = "stroke") := by
  have hcases : k = "stroke-width" ∨ k = "stroke-dasharray" ∨ k = "stroke-linecap" ∨
      k = "fill" ∨ k = "stroke" ∨ k = "font-family" ∨ k = "font-size" ∨
      k = "font-weight" ∨ k = "font-style" := by
    simpa [paintKeys] using hk
  unfold propMap at h
  split_ifs at h with h1 h2 h3 h4 h5 h6 h7 h8 h9
  all_goals rcases hcases with rfl | rfl | rfl | rfl | rfl | rfl | rfl | rfl | rfl
  all_goals first
    | exact absurd h (by decide)
    | exact ⟨h, by decide⟩
    | exact absurd h h1
    | exact absurd h h2
    | exact absurd h h3
    | exact absurd h h4
    | exact absurd h h5
    | exact absurd h h6
    | exact absurd h h7

/-- Core elision property of `applyAttributes`: a key/value pair present
in the enclosing group's effective attributes is never written to the
element's props (given it was not already there). -/
theorem applyAttrs_no_dup (typ : String) (ga props attrs : AttrMap) (k : String) (v : AttrVal)
    (hga : attrKeysOK ga) (hk : lookupA ga k = some v) (h0 : lookupA props k ≠ some v) :
    lookupA (applyAttrs typ (some ga) props attrs) k ≠ some v := by
  unfold applyAttrs
  induction attrs generalizing props with
  | nil => exact h0
  | cons kv rest ih =>
    rw [List.foldl_cons]
    by_cases h1 : ignoredFor typ kv.1
    · rw [if_pos h1]
      exact ih props h0
    · rw [if_neg h1]
      by_cases h2 : ((some ga).bind fun m => lookupA m kv.1) = some kv.2
      · rw [if_pos h2]
        exact ih props h0
      · rw [if_neg h2]
        apply ih
        by_cases h3 : propMap kv.1 = k
        · have hkp : k ∈ paintKeys := hga (k, v) (lookupA_mem ga k v hk)
          obtain ⟨heq, _⟩ := propMap_paint k kv.1 hkp h3
          rw [h3, lookupA_setA_self]
          intro hcontra
          apply h2
          show lookupA ga kv.1 = some kv.2
          rw [heq, hk, Option.some.inj hcontra]
        · rw [lookupA_setA_ne _ _ _ _ (fun hh => h3 hh.symm)]
          exact h0

theorem lookup_rect_direct_none (k : String) (hk : k ∈ paintKeys) (a b c d e : AttrVal) :
    lookupA (setA (setA (setA (setA [("key", e)] "x" a) "y" b) "width" c) "height" d) k =
      none := by
  have hne : k ≠ "height" ∧ k ≠ "width" ∧ k ≠ "y" ∧ k ≠ "x" ∧ k ≠ "key" := by
    rcases (by simpa [paintKeys] using hk :
        k = "stroke-width" ∨ k = "stroke-dasharray" ∨ k = "stroke-linecap" ∨
        k = "fill" ∨ k = "stroke" ∨ k = "font-family" ∨ k = "font-size" ∨
        k = "font-weight" ∨ k = "font-style") with
      rfl | rfl | rfl | rfl | rfl | rfl | rfl | rfl | rfl <;>
      exact ⟨by decide, by decide, by decide, by decide, by decide⟩
  rw [lookupA_setA_ne _ _ _ _ hne.1, lookupA_setA_ne _ _ _ _ hne.2.1,
      lookupA_setA_ne _ _ _ _ hne.2.2.1, lookupA_setA_ne _ _ _ _ hne.2.2.2.1]
  have hkey : ¬ ("key" = k) := fun hh => hne.2.2.2.2 hh.symm
  simp [lookupA, hkey]

theorem lookup_text_direct_none (k : String) (hk : k ∈ paintKeys) (a b e : AttrVal) :
    lookupA (setA (setA [("key", e)] "x" a) "y" b) k = none := by
  have hne : k ≠ "y" ∧ k ≠ "x" ∧ k ≠ "key" := by
    rcases (by simpa [paintKeys] using hk :
        k = "stroke-width" ∨ k = "stroke-dasharray" ∨ k = "stroke-linecap" ∨
        k = "fill" ∨ k = "stroke" ∨ k = "font-family" ∨ k = "font-size" ∨
        k = "font-weight" ∨ k = "font-style") with
      rfl | rfl | rfl | rfl | rfl | rfl | rfl | rfl | rfl <;>
      exact ⟨by decide, by decide, by decide⟩
  rw [lookupA_setA_ne _ _ _ _ hne.1, lookupA_setA_ne _ _ _ _ hne.2.1]
  have hkey : ¬ ("key" = k) := fun hh => hne.2.2 hh.symm
  simp [lookupA, hkey]

theorem lookup_key_only_none (k : String) (hk : k ∈ paintKeys) (e : AttrVal) :
    lookupA [("key", e)] k = none := by
  have hne : k ≠ "key" := by
    rcases (by simpa [paintKeys] using hk :
        k = "stroke-width" ∨ k = "stroke-dasharray" ∨ k = "stroke-linecap" ∨
        k = "fill" ∨ k = "stroke" ∨ k = "font-family" ∨ k = "font-size" ∨
        k = "font-weight" ∨ k = "font-style") with
      rfl | rfl | rfl | rfl | rfl | rfl | rfl | rfl | rfl <;> decide
  have hkey : ¬ ("key" = k) := fun hh => hne hh.symm
  simp [lookupA, hkey]

/-- The commands that append a leaf (non-group) node to the tree. -/
def isLeafAppendOp : Op → Bool
  | Op.rect _ _ _ _ _ => true
  | Op.fillRect _ _ _ _ => true
  | Op.pointerRect _ _ _ _ => true
  | Op.clearRect _ _ _ _ => true
  | Op.fill _ => true
  | Op.stroke => true
  | Op.fillText _ _ _ => true
  | _ => false

end VexFlowRN

namespace VexFlowRN

theorem elision_tail (typ : String) (ga props attrs : AttrMap) (k : String) (v : AttrVal)
    (hga : attrKeysOK ga) (hkv : lookupA ga k = some v) (h0 : lookupA props k = none) :
    lookupA (applyAttrs typ (some ga) props attrs) k ≠ some v := by
  apply applyAttrs_no_dup typ ga props attrs k v hga hkv
  rw [h0]
  simp

/-- C5: in every reachable context, a leaf node appended by any of the
leaf-appending drawing commands never carries a key/value pair whose
value coincides with the value that key has in the enclosing group's
effective (inherited) attribute set — such attributes are elided. -/
theorem leaf_attr_elision (places : ℕ) (w h : ℚ) (ops : List Op) (lop : Op)
    (k : String) (v : AttrVal) (e : Elem) (ga : AttrMap)
    (hleaf : isLeafAppendOp lop = true)
    (hga : effTop (run places w h ops) = some ga)
    (hkv : lookupA ga k = some v)
    (he : getStored (step (run places w h ops) lop) (run places w h ops).nextElementKey =
      some e) :
    lookupA e.props k ≠ some v := by
  have hInv := Inv_run places w h ops
  set ctx := run places w h ops with hctx
  obtain ⟨hkb, hgB, haOK, hgaOK, hssOK⟩ := hInv
  have hgaK : attrKeysOK ga := hgaOK ga (mem_of_getLast?_aux hga)
  have hkP : k ∈ paintKeys := hgaK (k, v) (lookupA_mem ga k v hkv)
  cases lop with
  | rect x y w2 h2 a =>
    simp only [step] at he
    rw [getStored_rect _ _ _ _ _ _ hkb] at he
    rw [← Option.some.inj he]
    dsimp only
    rw [hga]
    exact elision_tail _ ga _ _ k v hgaK hkv (lookup_rect_direct_none k hkP _ _ _ _ _)
  | fillRect x y w2 h2 =>
    simp only [step] at he
    unfold fillRect at he
    rw [getStored_rect _ _ _ _ _ _ hkb] at he
    rw [← Option.some.inj he]
    dsimp only
    rw [hga]
    exact elision_tail _ ga _ _ k v hgaK hkv (lookup_rect_direct_none k hkP _ _ _ _ _)
  | pointerRect x y w2 h2 =>
    simp only [step] at he
    unfold pointerRect at he
    rw [getStored_rect _ _ _ _ _ _ hkb] at he
    rw [← Option.some.inj he]
    dsimp only
    rw [hga]
    exact elision_tail _ ga _ _ k v hgaK hkv (lookup_rect_direct_none k hkP _ _ _ _ _)
  | clearRect x y w2 h2 =>
    simp only [step] at he
    unfold clearRect at he
    rw [getStored_rect _ _ _ _ _ _ hkb] at he
    rw [← Option.some.inj he]
    dsimp only
    rw [hga]
    exact elision_tail _ ga _ _ k v hgaK hkv (lookup_rect_direct_none k hkP _ _ _ _ _)
  | fill a =>
    simp only [step] at he
    rw [getStored_fill _ _ hkb] at he
    rw [← Option.some.inj he]
    dsimp only
    rw [hga]
    exact elision_tail _ ga _ _ k v hgaK hkv (lookup_key_only_none k hkP _)
  | stroke =>
    simp only [step] at he
    rw [getStored_stroke _ hkb] at he
    rw [← Option.some.inj he]
    dsimp only
    rw [hga]
    exact elision_tail _ ga _ _ k v hgaK hkv (lookup_key_only_none k hkP _)
  | fillText s x y =>
    simp only [step] at he
    by_cases hs : s = ""
    · rw [hs] at he
      unfold fillText at he
      rw [if_pos rfl] at he
      have hnone : getStored ctx ctx.nextElementKey = none := by
        unfold getStored
        exact getStored_go_none_of_lt _ _ hkb.1
      rw [hnone] at he
      cases he
    · rw [getStored_fillText _ _ _ _ hkb hs] at he
      rw [← Option.some.inj he]
      dsimp only
      rw [hga]
      exact elision_tail _ ga _ _ k v hgaK hkv (lookup_text_direct_none k hkP _ _ _)
  | setFillStyle s => simp [isLeafAppendOp] at hleaf
  | setBackgroundFillStyle s => simp [isLeafAppendOp] at hleaf
  | setStrokeStyle s => simp [isLeafAppendOp] at hleaf
  | setLineWidth w2 => simp [isLeafAppendOp] at hleaf
  | setLineCap s => simp [isLeafAppendOp] at hleaf
  | setLineDash l => simp [isLeafAppendOp] at hleaf
  | setFont f sz wt st css => simp [isLeafAppendOp] at hleaf
  | scale x y => simp [isLeafAppendOp] at hleaf
  | resize w2 h2 => simp [isLeafAppendOp] at hleaf
  | beginPath => simp [isLeafAppendOp] at hleaf
  | moveTo x y => simp [isLeafAppendOp] at hleaf
  | lineTo x y => simp [isLeafAppendOp] at hleaf
  | bezierCurveTo x1 y1 x2 y2 x y => simp [isLeafAppendOp] at hleaf
  | quadraticCurveTo x1 y1 x y => simp [isLeafAppendOp] at hleaf
  | closePath => simp [isLeafAppendOp] at hleaf
  | save => simp [isLeafAppendOp] at hleaf
  | restore => simp [isLeafAppendOp] at hleaf
  | openGroup c i => simp [isLeafAppendOp] at hleaf
  | closeGroup => simp [isLeafAppendOp] at hleaf
  | openRotation d x y => simp [isLeafAppendOp] at hleaf
  | closeRotation => simp [isLeafAppendOp] at hleaf
  | clear => simp [isLeafAppendOp] at hleaf

end VexFlowRN

namespace VexFlowRN

/-- The context of the C5 witness: a fresh context with one open
group. -/
def c5ctx : Ctx := run 2 500 200 [Op.openGroup (some "note") none]

/-- The element appended by `rect(1, 2, 3, 4)` in `c5ctx` (the
right-hand side of `getStored_rect` at those arguments). -/
def c5elem : Elem :=
  { typ := "rect"
    props := applyAttrs "rect" (effTop c5ctx)
      (setA (setA (setA (setA [("key", AttrVal.num (c5ctx.nextElementKey : ℚ))]
         "x" (AttrVal.num (c5ctx.round 1)))
         "y" (AttrVal.num (c5ctx.round (if (4 : ℚ) < 0 then 2 + 4 else 2))))
         "width" (AttrVal.num (c5ctx.round 3)))
         "height" (AttrVal.num (c5ctx.round (if (4 : ℚ) < 0 then -4 else 4))))
      (mergeA (rectDefaultAttrs c5ctx) ((none : Option AttrMap).getD []))
    children := [] }

/-- C5 witness: inside an open group on the fresh context, a `rect` leaf
whose paint attributes coincide with the group's effective attributes
is emitted without repeating them (here: the `stroke`/`"black"`
pair). -/
theorem leaf_attr_elision_witness :
    (isLeafAppendOp (Op.rect 1 2 3 4 none) = true ∧
     effTop c5ctx = some initAttributes ∧
     lookupA initAttributes "stroke" = some (AttrVal.str "black") ∧
     getStored (step c5ctx (Op.rect 1 2 3 4 none)) c5ctx.nextElementKey = some c5elem) ∧
    lookupA c5elem.props "stroke" ≠ some (AttrVal.str "black") :=
  ⟨⟨rfl, by decide, by decide,
     getStored_rect c5ctx 1 2 3 4 none (Inv_run 2 500 200 [Op.openGroup (some "note") none]).1⟩,
   leaf_attr_elision 2 500 200 [Op.openGroup (some "note") none] (Op.rect 1 2 3 4 none)
     "stroke" (AttrVal.str "black") c5elem initAttributes rfl (by decide) (by decide)
     (getStored_rect c5ctx 1 2 3 4 none (Inv_run 2 500 200 [Op.openGroup (some "note") none]).1)⟩

end VexFlowRN

namespace ArcModel

open VexFlowRN

/-- C3: whenever the angular span (measured in the direction of travel
selected by the `counterclockwise` flag) is at least a full turn, or the
normalized start angle equals the normalized end angle — in particular
for `arc(cx, cy, r, 0, 2π, false)` — `arc` appends exactly one move
command followed by exactly two elliptical-arc commands: the first to
the rounded point opposite the start angle, the second back to the
rounded start point; never one arc command and never zero. -/
theorem arc_full_circle_two_arcs (places : ℕ) (path : List (PathCmd ℝ))
    (pen : Option (ℝ × ℝ)) (x y radius startAngle endAngle : ℝ) (ccw : Bool)
    (h : fullCircleCond startAngle endAngle ccw) :
    (arc places path pen x y radius startAngle endAngle ccw).1 =
      path ++
        [PathCmd.M (roundR places (x + radius * Real.cos startAngle))
           (roundR places (y + radius * Real.sin startAngle)),
         PathCmd.A (roundR places radius) false false
           (roundR places (x + radius * Real.cos (startAngle + Real.pi)))
           (roundR places (y + radius * Real.sin (startAngle + Real.pi))),
         PathCmd.A (roundR places radius) false false
           (roundR places (x + radius * Real.cos startAngle))
           (roundR places (y + radius * Real.sin startAngle))] ∧
    ((arc places path pen x y radius startAngle endAngle ccw).1.drop path.length).countP
        (fun c => isArc c) = 2 := by
  unfold arc
  rw [if_pos h]
  refine ⟨rfl, ?_⟩
  show ((path ++ _).drop path.length).countP _ = 2
  rw [List.drop_left]
  simp [List.countP_cons, isArc]

/-- C10: in the full-circle branch both emitted elliptical-arc commands
carry large-arc flag 0 and sweep flag 0 regardless of the
`counterclockwise` argument, and the pen afterwards is the rounded
point at the start angle. -/
theorem arc_full_circle_flags_pen (places : ℕ) (path : List (PathCmd ℝ))
    (pen : Option (ℝ × ℝ)) (x y radius startAngle endAngle : ℝ) (ccw : Bool)
    (h : fullCircleCond startAngle endAngle ccw) :
    (∀ c ∈ (arc places path pen x y radius startAngle endAngle ccw).1.drop path.length,
       largeFlag c = false ∧ sweepFlag c = false) ∧
    (arc places path pen x y radius startAngle endAngle ccw).2 =
      some (roundR places (x + radius * Real.cos startAngle),
            roundR places (y + radius * Real.sin startAngle)) := by
  unfold arc
  rw [if_pos h]
  constructor
  · intro c hc
    rw [show ((path ++ _, _).1).drop path.length = _ from congrArg (List.drop path.length) rfl,
        List.drop_left] at hc
    simp only [List.mem_cons, List.not_mem_nil, or_false] at hc
    rcases hc with rfl | rfl | rfl
    · exact ⟨rfl, rfl⟩
    · exact ⟨rfl, rfl⟩
    · exact ⟨rfl, rfl⟩
  · rfl

/-- C3 witness: `arc(0, 0, 1, 0, 2π, false)` on the empty pending
path. -/
theorem arc_full_circle_two_arcs_witness :
    fullCircleCond 0 (2 * Real.pi) false ∧
    ((arc 3 [] none 0 0 1 0 (2 * Real.pi) false).1 =
      [] ++
        [PathCmd.M (roundR 3 (0 + 1 * Real.cos 0)) (roundR 3 (0 + 1 * Real.sin 0)),
         PathCmd.A (roundR 3 1) false false
           (roundR 3 (0 + 1 * Real.cos (0 + Real.pi))) (roundR 3 (0 + 1 * Real.sin (0 + Real.pi))),
         PathCmd.A (roundR 3 1) false false
           (roundR 3 (0 + 1 * Real.cos 0)) (roundR 3 (0 + 1 * Real.sin 0))] ∧
     ((arc 3 [] none 0 0 1 0 (2 * Real.pi) false).1.drop ([] : List (PathCmd ℝ)).length).countP
        (fun c => isArc c) = 2) :=
  have hc : fullCircleCond 0 (2 * Real.pi) false :=
    Or.inl ⟨rfl, by rw [sub_zero]⟩
  ⟨hc, arc_full_circle_two_arcs 3 [] none 0 0 1 0 (2 * Real.pi) false hc⟩

/-- C10 witness: the flag/pen facts at the same concrete call. -/
theorem arc_full_circle_flags_pen_witness :
    fullCircleCond 0 (2 * Real.pi) false ∧
    ((∀ c ∈ (arc 3 [] none 0 0 1 0 (2 * Real.pi) false).1.drop ([] : List (PathCmd ℝ)).length,
        largeFlag c = false ∧ sweepFlag c = false) ∧
     (arc 3 [] none 0 0 1 0 (2 * Real.pi) false).2 =
       some (roundR 3 (0 + 1 * Real.cos 0), roundR 3 (0 + 1 * Real.sin 0))) :=
  have hc : fullCircleCond 0 (2 * Real.pi) false :=
    Or.inl ⟨rfl, by rw [sub_zero]⟩
  ⟨hc, arc_full_circle_flags_pen 3 [] none 0 0 1 0 (2 * Real.pi) false hc⟩

end ArcModel

namespace TextModel

/-- The per-character width contribution of the symbolic branch, as the
specification words it: a table hit contributes
`advance * (pixelSize / 4)`, a reserved-range character missing from
the table contributes the fixed fallback fraction `0.25` of the pixel
size, and a character outside the reserved range contributes the
ordinary average-width fraction `0.55` of the pixel size. -/
def smuflContribution (fontSize : ℚ) (ch : Char) : ℚ :=
  if isSmuflGlyph ch then
    match getSmuflGlyphWidth ch with
    | some w => w * (fontSize / 4)
    | none => 0.25 * fontSize
  else 0.55 * fontSize

theorem foldl_add_eq_sum (f : Char → ℚ) (l : List Char) (a : ℚ) :
    l.foldl (fun t c => t + f c) a = a + (l.map f).sum := by
  induction l generalizing a with
  | nil => simp
  | cons c rest ih =>
    rw [List.foldl_cons, ih, List.map_cons, List.sum_cons]
    ring

theorem measureSmuflText_eq_sum (text : List Char) (s : ℚ) :
    measureSmuflText text s = (text.map (smuflContribution s)).sum := by
  unfold measureSmuflText
  have hfun : (fun (totalWidth : ℚ) (c : Char) =>
      if isSmuflGlyph c then
        match getSmuflGlyphWidth c with
        | some glyphWidth => totalWidth + glyphWidth * (s / 4)
        | none => totalWidth + 0.25 * s
      else totalWidth + 0.55 * s) =
      fun (t : ℚ) (c : Char) => t + smuflContribution s c := by
    funext t c
    unfold smuflContribution
    by_cases h : isSmuflGlyph c
    · rcases hg : getSmuflGlyphWidth c with _ | w <;> simp [h, hg]
    · simp [h]
  rw [hfun, foldl_add_eq_sum]
  rw [zero_add]

/-- C7: for a symbolic (music) font family and a text whose first
character lies in the reserved private-use range U+E000–U+F8FF, the
measured width is the per-character sum of `smuflContribution`
(table hit: `advance * (pixelSize / 4)`; reserved-range miss:
`0.25 * pixelSize`; ordinary character: `0.55 * pixelSize`); and in
every branch the returned ascent and descent equal
`pixelSize * family.ascent` and `pixelSize * family.descent`. -/
theorem measureText_smufl_spec (fontSize : ℚ) (fam : String) (text : List Char)
    (c : Char) (rest : List Char)
    (hm : (getFontMetrics fam).isMusicFont = true)
    (ht : text = c :: rest) (hc : isSmuflGlyph c = true) :
    (measureText fontSize fam text).width =
      (text.map (smuflContribution fontSize)).sum ∧
    (∀ (size2 : ℚ) (fam2 : String) (text2 : List Char),
      (measureText size2 fam2 text2).fontBoundingBoxAscent =
          size2 * (getFontMetrics fam2).ascent ∧
      (measureText size2 fam2 text2).actualBoundingBoxAscent =
          size2 * (getFontMetrics fam2).ascent ∧
      (measureText size2 fam2 text2).emHeightAscent =
          size2 * (getFontMetrics fam2).ascent ∧
      (measureText size2 fam2 text2).fontBoundingBoxDescent =
          size2 * (getFontMetrics fam2).descent ∧
      (measureText size2 fam2 text2).actualBoundingBoxDescent =
          size2 * (getFontMetrics fam2).descent ∧
      (measureText size2 fam2 text2).emHeightDescent =
          size2 * (getFontMetrics fam2).descent) := by
  constructor
  · unfold measureText
    dsimp only
    rw [if_pos ?hcond]
    case hcond =>
      refine ⟨hm, ?_⟩
      rw [ht]
      exact hc
    exact measureSmuflText_eq_sum text fontSize
  · intro size2 fam2 text2
    exact ⟨rfl, rfl, rfl, rfl, rfl, rfl⟩

/-- C7 witness: the accidental-sharp glyph (in the width table), an
unknown private-use glyph (not in the table) and an ordinary letter,
measured at 20 pixels under the Bravura music font. -/
theorem measureText_smufl_spec_witness :
    ((getFontMetrics "Bravura").isMusicFont = true ∧
     (['\uE262', '\uF8F0', 'X'] : List Char) = '\uE262' :: ['\uF8F0', 'X'] ∧
     isSmuflGlyph '\uE262' = true) ∧
    ((measureText 20 "Bravura" ['\uE262', '\uF8F0', 'X']).width =
      ((['\uE262', '\uF8F0', 'X'] : List Char).map (smuflContribution 20)).sum ∧
     (∀ (size2 : ℚ) (fam2 : String) (text2 : List Char),
       (measureText size2 fam2 text2).fontBoundingBoxAscent =
           size2 * (getFontMetrics fam2).ascent ∧
       (measureText size2 fam2 text2).actualBoundingBoxAscent =
           size2 * (getFontMetrics fam2).ascent ∧
       (measureText size2 fam2 text2).emHeightAscent =
           size2 * (getFontMetrics fam2).ascent ∧
       (measureText size2 fam2 text2).fontBoundingBoxDescent =
           size2 * (getFontMetrics fam2).descent ∧
       (measureText size2 fam2 text2).actualBoundingBoxDescent =
           size2 * (getFontMetrics fam2).descent ∧
       (measureText size2 fam2 text2).emHeightDescent =
           size2 * (getFontMetrics fam2).descent)) :=
  ⟨⟨by decide, rfl, by decide⟩,
   measureText_smufl_spec 20 "Bravura" ['\uE262', '\uF8F0', 'X'] '\uE262' ['\uF8F0', 'X']
     (by decide) rfl (by decide)⟩

end TextModel
